import Mathlib

/-!
The User entity of the multilayer service.

A shallow embedding of `internal/entity/user.go`.

* A Go `string` is modelled by the list of its code points (`GoString`); the
  model therefore covers strings holding well-formed UTF-8 text.  The builtin
  `len` is the number of bytes of the UTF-8 encoding.
* A Go `error` built with `errors.New` is modelled by its message, and the
  `error` interface value by `Option String` (`none` is `nil`).
* A `*User` result is an `Option User` (`none` is the nil pointer); a method
  with a pointer receiver that assigns fields returns the receiver's new value.
* `regexp.MustCompile(p).MatchString(s)` is modelled by a regular-expression
  syntax tree and a matcher by derivatives; the pattern of the source is
  anchored with `^` and `$`, so it reports whether the whole string belongs to
  the language of the pattern.

The service of `internal/service/user_service.go` is embedded over the
interface of `internal/repository/user_repository.go`: a store is a record of
its three methods, each taking the state of the store before the call and
returning the state after it, and a method of the service is run from a state
of the store.

The handlers of `internal/controller/user_controller.go` are embedded over the
interface of the service: a handler reads the route parameter and the parsed
body from the context of the request and returns the response, its status and
its JSON body.  `int` and `uint` have 64 bits.
-/

/-- A Go string holding UTF-8 text, as the sequence of its code points. -/
abbrev GoString := List Char

/-- The builtin `len` on a string: the number of bytes of its UTF-8 encoding. -/
def len (s : GoString) : Nat :=
  (s.map Char.utf8Size).sum

namespace strings

/-- The predicate `unicode.IsSpace`: the code points with the Unicode
White_Space property. -/
def isSpace (r : Char) : Bool :=
  let n := r.toNat
  (0x09 ≤ n && n ≤ 0x0D) || n == 0x20 || n == 0x85 || n == 0xA0 || n == 0x1680
    || (0x2000 ≤ n && n ≤ 0x200A) || n == 0x2028 || n == 0x2029 || n == 0x202F
    || n == 0x205F || n == 0x3000

/-- The function `strings.TrimSpace`: the string without its leading and
trailing white space. -/
def TrimSpace (s : GoString) : GoString :=
  (s.dropWhile isSpace).rdropWhile isSpace

end strings

namespace regexp

/-- Syntax of the regular expressions used by the entity package. -/
inductive Regexp where
  | noMatch : Regexp
  | emptyMatch : Regexp
  | charClass (p : Char → Bool) : Regexp
  | alternate (r s : Regexp) : Regexp
  | concat (r s : Regexp) : Regexp
  | star (r : Regexp) : Regexp

namespace Regexp

/-- A literal character, such as `@` or `\.`. -/
def literal (c : Char) : Regexp :=
  charClass (fun x => x == c)

/-- The postfix operator `+`: one or more repetitions. -/
def plus (r : Regexp) : Regexp :=
  concat r (star r)

/-- The postfix operator `{n,}`: `n` or more repetitions. -/
def repeatMin : Nat → Regexp → Regexp
  | 0, r => star r
  | n + 1, r => concat r (repeatMin n r)

/-- Whether the expression matches the empty string. -/
def nullable : Regexp → Bool
  | noMatch => false
  | emptyMatch => true
  | charClass _ => false
  | alternate r s => nullable r || nullable s
  | concat r s => nullable r && nullable s
  | star _ => true

/-- The derivative of an expression by a character: it matches `x` exactly when
the expression matches `a :: x`. -/
def deriv : Regexp → Char → Regexp
  | noMatch, _ => noMatch
  | emptyMatch, _ => noMatch
  | charClass p, a => if p a then emptyMatch else noMatch
  | alternate r s, a => alternate (deriv r a) (deriv s a)
  | concat r s, a =>
    if nullable r then alternate (concat (deriv r a) s) (deriv s a)
    else concat (deriv r a) s
  | star r, a => concat (deriv r a) (star r)

/-- The method `MatchString` of a pattern written between `^` and `$`: whether
the whole string matches. -/
def MatchString : Regexp → GoString → Bool
  | r, [] => nullable r
  | r, a :: s => MatchString (deriv r a) s

/-- The language of an expression: the strings it matches in full. -/
def lang : Regexp → Language Char
  | noMatch => 0
  | emptyMatch => 1
  | charClass p => {x | ∃ c, p c = true ∧ x = [c]}
  | alternate r s => lang r + lang s
  | concat r s => lang r * lang s
  | star r => KStar.kstar (lang r)

end Regexp

end regexp

namespace entity

open strings regexp

/-- The struct `User`. -/
structure User where
  ID : Nat
  Username : GoString
  Email : GoString
deriving DecidableEq

/-- The range `lo-hi` of a character class. -/
def inRange (lo hi c : Char) : Bool :=
  lo.toNat ≤ c.toNat && c.toNat ≤ hi.toNat

/-- The class `[a-zA-Z0-9._%+-]`. -/
def localClass (c : Char) : Bool :=
  inRange 'a' 'z' c || inRange 'A' 'Z' c || inRange '0' '9' c
    || c == '.' || c == '_' || c == '%' || c == '+' || c == '-'

/-- The class `[a-zA-Z0-9.-]`. -/
def domainClass (c : Char) : Bool :=
  inRange 'a' 'z' c || inRange 'A' 'Z' c || inRange '0' '9' c || c == '.' || c == '-'

/-- The class `[a-zA-Z]`. -/
def letterClass (c : Char) : Bool :=
  inRange 'a' 'z' c || inRange 'A' 'Z' c

/-- The pattern `^[a-zA-Z0-9._%+-]+@[a-zA-Z0-9.-]+\.[a-zA-Z]{2,}$` compiled in
`Validate` and in `IsValidEmail`. -/
def emailRegex : Regexp :=
  .concat (.plus (.charClass localClass))
    (.concat (.literal '@')
      (.concat (.plus (.charClass domainClass))
        (.concat (.literal '.') (.repeatMin 2 (.charClass letterClass)))))

/-- The method `User.Validate`: `none` when the user is accepted, otherwise the
message of the error. -/
def User.Validate (u : User) : Option String :=
  if u.Username = [] then
    some "username cannot be empty"
  else if len u.Username < 3 then
    some "username must be at least 3 characters long"
  else if len u.Username > 50 then
    some "username cannot exceed 50 characters"
  else if u.Email = [] then
    some "email cannot be empty"
  else if !emailRegex.MatchString u.Email then
    some "invalid email format"
  else
    none

/-- The function `NewUser`: the pointer and the error it returns. -/
def NewUser (username email : GoString) : Option User × Option String :=
  let user : User := { ID := 0, Username := TrimSpace username, Email := TrimSpace email }
  match user.Validate with
  | some err => (none, some err)
  | none => (some user, none)

/-- The method `User.Update`: the receiver after the call and the error
returned. -/
def User.Update (u : User) (username email : GoString) : User × Option String :=
  let oldUsername := u.Username
  let oldEmail := u.Email
  let u1 : User := { u with Username := TrimSpace username, Email := TrimSpace email }
  match u1.Validate with
  | some err => ({ u1 with Username := oldUsername, Email := oldEmail }, some err)
  | none => (u1, none)

/-- The method `User.IsValidEmail`. -/
def User.IsValidEmail (u : User) : Bool :=
  emailRegex.MatchString u.Email

/-- The ASCII letters. -/
def asciiLetters : GoString :=
  "abcdefghijklmnopqrstuvwxyzABCDEFGHIJKLMNOPQRSTUVWXYZ".toList

/-- The ASCII digits. -/
def asciiDigits : GoString :=
  "0123456789".toList

/-- The characters allowed in the local part of an email: letters, digits and
the five signs `.`, `_`, `%`, `+`, `-`. -/
def localAlphabet : GoString :=
  asciiLetters ++ asciiDigits ++ "._%+-".toList

/-- The characters allowed in the domain of an email: letters, digits, `.` and
`-`. -/
def domainAlphabet : GoString :=
  asciiLetters ++ asciiDigits ++ ".-".toList

/-- The shape of an email as the specification words it: a non-empty local part
`L`, the sign `@`, a non-empty domain `D`, a dot, and a final label `T` of two
or more letters, with nothing before or after. -/
def EmailShape (e : GoString) : Prop :=
  ∃ L D T : GoString, e = L ++ '@' :: (D ++ '.' :: T) ∧
    (L ≠ [] ∧ ∀ c ∈ L, c ∈ localAlphabet) ∧
    (D ≠ [] ∧ ∀ c ∈ D, c ∈ domainAlphabet) ∧
    (2 ≤ T.length ∧ ∀ c ∈ T, c ∈ asciiLetters)

/-- The validation rules in the order of the specification, each with the
message of its error: a rule holds of a user that violates it. -/
def validationRules : List ((User → Bool) × String) :=
  [ (fun u => decide (u.Username = []), "username cannot be empty"),
    (fun u => decide (len u.Username < 3), "username must be at least 3 characters long"),
    (fun u => decide (len u.Username > 50), "username cannot exceed 50 characters"),
    (fun u => decide (u.Email = []), "email cannot be empty"),
    (fun u => !u.IsValidEmail, "invalid email format") ]

/-- The message of the earliest rule of `validationRules` that the user
violates, if any. -/
def firstFailingRule (u : User) : Option String :=
  (validationRules.find? (fun r => r.1 u)).map Prod.snd

/-- The domain part of an email: the text between the first `@` and the final
dot after it. -/
def domainPart (e : GoString) : GoString :=
  let afterAt := (e.dropWhile (fun c => c != '@')).drop 1
  ((afterAt.reverse.dropWhile (fun c => c != '.')).drop 1).reverse

/-- Whether a domain is a sequence of one or more non-empty labels separated by
dots. -/
def dotSeparatedLabels (d : GoString) : Bool :=
  (d.splitOn '.').all (fun l => !l.isEmpty)

end entity

namespace strings

/-- The loop of `strings.Split` for a non-empty separator: `skip` counts the
characters of a separator just found that are still to be passed over, `cur`
holds, in reverse, the piece being read. -/
def Split.go (sep : GoString) : GoString → Nat → GoString → List GoString
  | [], _, cur => [cur.reverse]
  | _ :: rest, skip + 1, cur => Split.go sep rest skip cur
  | c :: rest, 0, cur =>
    if sep.isPrefixOf (c :: rest) then cur.reverse :: Split.go sep rest (sep.length - 1) []
    else Split.go sep rest 0 (c :: cur)

/-- The function `strings.Split`: the pieces of `s` between the occurrences of
`sep`; with an empty separator, the characters of `s` one by one. -/
def Split (s sep : GoString) : List GoString :=
  if sep = [] then s.map (fun c => [c]) else Split.go sep s 0 []

end strings

namespace entity

open strings

/-- The method `User.GetDisplayName`. -/
def User.GetDisplayName (u : User) : GoString :=
  if u.Username ≠ [] then
    u.Username
  else
    let unknown : GoString := "Unknown User".toList
    if u.Email ≠ [] then
      match Split u.Email "@".toList with
      | part :: _ => part
      | [] => unknown
    else
      unknown

end entity

namespace repository

open entity

/-- The interface `UserRepositoryInterface`, over the states `σ` of the store
behind it.  Every method takes the state before the call and returns the state
after it.  `Create` receives a pointer and may write the entity (the
identifier): it returns the entity as the call leaves it, and the error.
`FindByID` returns a pointer, possibly nil, and an error.  `Update` receives a
pointer as `Create` does and may write the entity as well: it returns the
entity as the call leaves it, and the error. -/
structure UserRepositoryInterface (σ : Type) where
  Create : User → σ → (User × Option String) × σ
  FindByID : Nat → σ → (Option User × Option String) × σ
  Update : User → σ → (User × Option String) × σ

/-- A call received by a store. -/
inductive Call where
  | Create (user : User) : Call
  | FindByID (id : Nat) : Call
  | Update (user : User) : Call
deriving DecidableEq

/-- The store `R` instrumented with the list of the calls it has received, in
order. -/
def traced {σ : Type} (R : UserRepositoryInterface σ) :
    UserRepositoryInterface (σ × List Call) where
  Create user s := ((R.Create user s.1).1, ((R.Create user s.1).2, s.2 ++ [Call.Create user]))
  FindByID id s := ((R.FindByID id s.1).1, ((R.FindByID id s.1).2, s.2 ++ [Call.FindByID id]))
  Update user s := ((R.Update user s.1).1, ((R.Update user s.1).2, s.2 ++ [Call.Update user]))

/-- The identifier following the greatest one in use. -/
def nextID (s : List User) : Nat :=
  (s.map User.ID).foldr max 0 + 1

/-- Modelled from the spec: the Store Port of section 4.2, whose implementation
(the database behind `UserRepository`) is not part of the sources.  The state
is the list of the persisted users.  `Create` assigns the next identifier and
fails when the username or the email already exists; `FindByID` returns the
record, or an empty user and an error; `Update` replaces the record with the
same identifier and fails when there is none or when the username or the email
belongs to another record; it leaves the entity it is handed as it is. -/
def memStore : UserRepositoryInterface (List User) where
  Create user s :=
    if s.any (fun r => r.Username = user.Username || r.Email = user.Email) then
      ((user, some "UNIQUE constraint failed"), s)
    else
      (({ user with ID := nextID s }, none), s ++ [{ user with ID := nextID s }])
  FindByID id s :=
    match s.find? (fun r => r.ID = id) with
    | some r => ((some r, none), s)
    | none => ((some { ID := 0, Username := [], Email := [] }, some "record not found"), s)
  Update user s :=
    if s.all (fun r => r.ID != user.ID) then
      ((user, some "record not found"), s)
    else if s.any (fun r => r.ID != user.ID &&
        (r.Username = user.Username || r.Email = user.Email)) then
      ((user, some "UNIQUE constraint failed"), s)
    else
      ((user, none), s.map (fun r => if r.ID = user.ID then user else r))

/-- A store that saves as the `Save` of a database library does: `Create` and
`FindByID` are those of `memStore`; `Update`, handed an entity whose identifier
is zero, inserts it under the next identifier, which it writes into the
entity, and otherwise does what `memStore.Update` does. -/
def saveStore : UserRepositoryInterface (List User) where
  Create := memStore.Create
  FindByID := memStore.FindByID
  Update user s :=
    if user.ID = 0 then
      (({ user with ID := nextID s }, none), s ++ [{ user with ID := nextID s }])
    else
      memStore.Update user s

/-- The Store Port contract of `create` and `fetchById`, at the state `st`: a
`Create` that succeeds assigns a non-zero identifier, keeps the username and
the email, and stores the record, which `FindByID` then returns. -/
def CreateContract {σ : Type} (R : UserRepositoryInterface σ) (st : σ) : Prop :=
  ∀ (user created : User) (st1 : σ), R.Create user st = ((created, none), st1) →
    created.ID ≠ 0 ∧ created.Username = user.Username ∧ created.Email = user.Email ∧
      (R.FindByID created.ID st1).1 = (some created, none)

/-- The uniqueness enforced by the Store Port, at the state `st`: once a
`Create` has succeeded, a `Create` with the same username or the same email
fails. -/
def EnforcesUniqueness {σ : Type} (R : UserRepositoryInterface σ) (st : σ) : Prop :=
  ∀ (user created : User) (st1 : σ), R.Create user st = ((created, none), st1) →
    ∀ other : User, other.Username = user.Username ∨ other.Email = user.Email →
      (R.Create other st1).1.2 ≠ none

end repository

namespace service

open entity repository

/-- The struct `UserService`. -/
structure UserService (σ : Type) where
  userRepo : UserRepositoryInterface σ

/-- The method `UserService.UpdateUser`, run from the store state `st`: the
pointer and the error returned, and the store state after the call; `none` is
the run-time panic of assigning a field through a nil pointer.  The pointer
returned is the one handed to `Update`: the entity is returned as `Update`
left it. -/
def UserService.UpdateUser {σ : Type} (s : UserService σ) (id : Nat)
    (username email : GoString) (st : σ) : Option ((Option User × Option String) × σ) :=
  let found := s.userRepo.FindByID id st
  match found.1.2 with
  | some err => some ((none, some err), found.2)
  | none =>
    match found.1.1 with
    | none => none
    | some user =>
      let user : User := { user with Username := username, Email := email }
      let saved := s.userRepo.Update user found.2
      some ((some saved.1.1, saved.1.2), saved.2)

/-- The method `UserService.RegisterUser`, run from the store state `st`. -/
def UserService.RegisterUser {σ : Type} (s : UserService σ)
    (username email : GoString) (st : σ) : (Option User × Option String) × σ :=
  let user : User := { ID := 0, Username := username, Email := email }
  let created := s.userRepo.Create user st
  ((some created.1.1, created.1.2), created.2)

/-- The method `UserService.GetUser`, run from the store state `st`. -/
def UserService.GetUser {σ : Type} (s : UserService σ) (id : Nat) (st : σ) :
    (Option User × Option String) × σ :=
  s.userRepo.FindByID id st

end service

namespace service

open entity

/-- The interface `UserServiceInterface`, over the states `σ` of the store
behind the service: each method is run from a state and returns the pointer
and the error, and the state after the call.  `none` is a run-time panic
inside the method. -/
structure UserServiceInterface (σ : Type) where
  UpdateUser : Nat → GoString → GoString → σ → Option ((Option User × Option String) × σ)
  RegisterUser : GoString → GoString → σ → Option ((Option User × Option String) × σ)
  GetUser : Nat → σ → Option ((Option User × Option String) × σ)

/-- The struct `UserService` seen through `UserServiceInterface`. -/
def UserService.asInterface {σ : Type} (s : UserService σ) : UserServiceInterface σ where
  UpdateUser id username email st := s.UpdateUser id username email st
  RegisterUser username email st := some (s.RegisterUser username email st)
  GetUser id st := some (s.GetUser id st)

/-- A call received by a service. -/
inductive ServiceCall where
  | UpdateUser (id : Nat) (username email : GoString) : ServiceCall
  | RegisterUser (username email : GoString) : ServiceCall
  | GetUser (id : Nat) : ServiceCall
deriving DecidableEq

/-- The service `S` instrumented with the list of the calls it has received, in
order. -/
def tracedService {σ : Type} (S : UserServiceInterface σ) :
    UserServiceInterface (σ × List ServiceCall) where
  UpdateUser id username email st :=
    (S.UpdateUser id username email st.1).map
      (fun r => (r.1, (r.2, st.2 ++ [ServiceCall.UpdateUser id username email])))
  RegisterUser username email st :=
    (S.RegisterUser username email st.1).map
      (fun r => (r.1, (r.2, st.2 ++ [ServiceCall.RegisterUser username email])))
  GetUser id st :=
    (S.GetUser id st.1).map (fun r => (r.1, (r.2, st.2 ++ [ServiceCall.GetUser id])))

end service

namespace strconv

/-- The value of a decimal digit, if the character is one. -/
def digitVal (c : Char) : Option Nat :=
  if '0'.toNat ≤ c.toNat ∧ c.toNat ≤ '9'.toNat then some (c.toNat - '0'.toNat) else none

/-- The number written by a string of decimal digits, read after the digits
that gave `acc`; `none` when a character is not a digit. -/
def parseDigits : GoString → Nat → Option Nat
  | [], acc => some acc
  | c :: cs, acc =>
    match digitVal c with
    | some d => parseDigits cs (acc * 10 + d)
    | none => none

/-- The loop of `strconv.ParseUint` in base 10 with 64 bits, after the digits
that gave `n`: the value and the error.  A character that is not a digit is a
syntax error; a digit with which the value leaves the range is a range error,
returned at once with the greatest value. -/
def parseUintLoop : GoString → Nat → Nat × Option String
  | [], n => (n, none)
  | c :: cs, n =>
    match digitVal c with
    | none => (0, some "invalid syntax")
    | some d =>
      if n ≥ (2 ^ 64 - 1) / 10 + 1 then
        (2 ^ 64 - 1, some "value out of range")
      else if n * 10 + d > 2 ^ 64 - 1 then
        (2 ^ 64 - 1, some "value out of range")
      else
        parseUintLoop cs (n * 10 + d)

/-- The function `strconv.ParseUint(s, 10, 0)` where `int` has 64 bits. -/
def ParseUint (s : GoString) : Nat × Option String :=
  if s = [] then (0, some "invalid syntax") else parseUintLoop s 0

/-- The function `strconv.ParseInt(s, 10, 0)` where `int` has 64 bits: a
syntax error of `ParseUint` is returned with the value 0; otherwise the
unsigned value is checked against the range of `int`. -/
def ParseInt (s : GoString) : Int × Option String :=
  if s = [] then
    (0, some "invalid syntax")
  else
    let neg : Bool := decide (s.head? = some '-')
    let rest : GoString :=
      if s.head? = some '+' ∨ s.head? = some '-' then s.tail else s
    let parsed := ParseUint rest
    if parsed.2 = some "invalid syntax" then
      (0, parsed.2)
    else if !neg && decide (parsed.1 ≥ 2 ^ 63) then
      ((2 ^ 63 : Int) - 1, some "value out of range")
    else if neg && decide (parsed.1 > 2 ^ 63) then
      (-(2 ^ 63 : Int), some "value out of range")
    else
      (if neg then -(parsed.1 : Int) else (parsed.1 : Int), none)

/-- The function `strconv.Atoi` where `int` has 64 bits: the value and the
error.  A string of 1 to 18 bytes takes the fast path, which reads an optional
sign and digits and cannot leave the range; any other string goes through
`ParseInt`. -/
def Atoi (s : GoString) : Int × Option String :=
  if 0 < len s ∧ len s < 19 then
    let digits : GoString :=
      if s.head? = some '-' ∨ s.head? = some '+' then s.tail else s
    if digits = [] then
      (0, some "invalid syntax")
    else
      match parseDigits digits 0 with
      | none => (0, some "invalid syntax")
      | some n => (if s.head? = some '-' then -(n : Int) else (n : Int), none)
  else
    ParseInt s

/-- The number written by a string of decimal digits. -/
def decimalValue (digits : GoString) : Nat :=
  digits.foldl (fun acc c => acc * 10 + (c.toNat - '0'.toNat)) 0

/-- The string `s` writes `n` as a signed decimal integer within the range of a
64-bit `int`: an optional sign `+` or `-`, then one or more decimal digits. -/
def SignedDecimal (s : GoString) (n : Int) : Prop :=
  ∃ digits : GoString, digits ≠ [] ∧ (∀ c ∈ digits, c ∈ entity.asciiDigits) ∧
    (((s = digits ∨ s = '+' :: digits) ∧ n = (decimalValue digits : Int) ∧ n < 2 ^ 63) ∨
      (s = '-' :: digits ∧ n = -(decimalValue digits : Int) ∧ -(2 ^ 63 : Int) ≤ n))

end strconv

/-- The conversion `uint(n)` of an `int` where both have 64 bits. -/
def uint (n : Int) : Nat :=
  (n % (2 ^ 64 : Int)).toNat

namespace fiber

open entity

/-- The constant `fiber.StatusOK`. -/
def StatusOK : Nat := 200

/-- The constant `fiber.StatusCreated`. -/
def StatusCreated : Nat := 201

/-- The constant `fiber.StatusBadRequest`. -/
def StatusBadRequest : Nat := 400

/-- The constant `fiber.StatusNotFound`. -/
def StatusNotFound : Nat := 404

/-- The constant `fiber.StatusInternalServerError`. -/
def StatusInternalServerError : Nat := 500

/-- The struct that the handlers fill from the body of a request. -/
structure Input where
  Username : GoString
  Email : GoString
deriving DecidableEq

/-- What a handler reads from `*fiber.Ctx`: the route parameters by name, and
the outcome of `BodyParser`, an error or the parsed input. -/
structure Ctx where
  Params : GoString → GoString
  BodyParser : Except String Input

/-- The context of a request whose route parameter "id" is `id` and whose
body parses as `body`. -/
def request (id : GoString) (body : Except String Input) : Ctx where
  Params name := if name = "id".toList then id else []
  BodyParser := body

/-- The JSON document of a response: `fiber.Map` with the key "error", or a
user (a nil pointer is `none`). -/
inductive Body where
  | error (message : String) : Body
  | user (u : Option User) : Body
deriving DecidableEq

/-- A response: its status and its body. -/
structure Response where
  status : Nat
  body : Body
deriving DecidableEq

end fiber

namespace controller

open entity service fiber

/-- The struct `UserController`. -/
structure UserController (σ : Type) where
  userService : UserServiceInterface σ

/-- The handler `UserController.UpdateUser`, run from the state `st`: the
response and the state after the call; `none` is a panic in the service. -/
def UserController.UpdateUser {σ : Type} (c : UserController σ) (ctx : Ctx) (st : σ) :
    Option (Response × σ) :=
  let parsed := strconv.Atoi (ctx.Params "id".toList)
  match parsed.2 with
  | some _ => some ({ status := StatusBadRequest, body := Body.error "Invalid ID" }, st)
  | none =>
    match ctx.BodyParser with
    | Except.error err => some ({ status := StatusBadRequest, body := Body.error err }, st)
    | Except.ok input =>
      match c.userService.UpdateUser (uint parsed.1) input.Username input.Email st with
      | none => none
      | some result =>
        match result.1.2 with
        | some err =>
          some ({ status := StatusInternalServerError, body := Body.error err }, result.2)
        | none => some ({ status := StatusOK, body := Body.user result.1.1 }, result.2)

/-- The handler `UserController.Register`, run from the state `st`. -/
def UserController.Register {σ : Type} (c : UserController σ) (ctx : Ctx) (st : σ) :
    Option (Response × σ) :=
  match ctx.BodyParser with
  | Except.error err => some ({ status := StatusBadRequest, body := Body.error err }, st)
  | Except.ok input =>
    match c.userService.RegisterUser input.Username input.Email st with
    | none => none
    | some result =>
      match result.1.2 with
      | some err =>
        some ({ status := StatusInternalServerError, body := Body.error err }, result.2)
      | none => some ({ status := StatusCreated, body := Body.user result.1.1 }, result.2)

/-- The handler `UserController.GetUser`, run from the state `st`: the error of
`strconv.Atoi` is discarded. -/
def UserController.GetUser {σ : Type} (c : UserController σ) (ctx : Ctx) (st : σ) :
    Option (Response × σ) :=
  let parsed := strconv.Atoi (ctx.Params "id".toList)
  match c.userService.GetUser (uint parsed.1) st with
  | none => none
  | some result =>
    match result.1.2 with
    | some _ =>
      some ({ status := StatusNotFound, body := Body.error "User not found" }, result.2)
    | none => some ({ status := StatusOK, body := Body.user result.1.1 }, result.2)

end controller

namespace regexp

namespace Regexp

theorem mem_lang_charClass (p : Char → Bool) (x : GoString) :
    x ∈ lang (charClass p) ↔ ∃ c, p c = true ∧ x = [c] :=
  Iff.rfl

theorem nullable_iff (r : Regexp) : nullable r = true ↔ [] ∈ lang r := by
  induction r with
  | noMatch => simp [nullable, lang, Language.not_mem_zero]
  | emptyMatch => simp [nullable, lang, Language.mem_one]
  | charClass p => simp [nullable, mem_lang_charClass]
  | alternate r s ihr ihs => simp [nullable, lang, Language.mem_add, ihr, ihs]
  | concat r s ihr ihs => simp [nullable, lang, Language.mem_mul, ihr, ihs]
  | star r _ => simp [nullable, lang, Language.nil_mem_kstar]

theorem cons_mem_mul (L M : Language Char) (a : Char) (x : GoString) :
    a :: x ∈ L * M ↔
      (∃ t u, x = t ++ u ∧ a :: t ∈ L ∧ u ∈ M) ∨ ([] ∈ L ∧ a :: x ∈ M) := by
  rw [Language.mem_mul]
  constructor
  · rintro ⟨t, ht, u, hu, htu⟩
    cases t with
    | nil =>
      right
      simp only [List.nil_append] at htu
      subst htu
      exact ⟨ht, hu⟩
    | cons b t =>
      left
      simp only [List.cons_append, List.cons.injEq] at htu
      obtain ⟨rfl, rfl⟩ := htu
      exact ⟨t, u, rfl, ht, hu⟩
  · rintro (⟨t, u, rfl, ht, hu⟩ | ⟨hL, hM⟩)
    · exact ⟨a :: t, ht, u, hu, rfl⟩
    · exact ⟨[], hL, a :: x, hM, rfl⟩

theorem cons_mem_kstar (L : Language Char) (a : Char) (x : GoString) :
    a :: x ∈ KStar.kstar L ↔ ∃ t u, x = t ++ u ∧ a :: t ∈ L ∧ u ∈ KStar.kstar L := by
  constructor
  · intro h
    rw [Language.mem_kstar_iff_exists_nonempty] at h
    obtain ⟨S, hS, hall⟩ := h
    cases S with
    | nil => simp at hS
    | cons y S =>
      obtain ⟨hy, hne⟩ := hall y (List.mem_cons_self _ _)
      cases y with
      | nil => exact absurd rfl hne
      | cons b t =>
        simp only [List.flatten_cons, List.cons_append, List.cons.injEq] at hS
        obtain ⟨rfl, rfl⟩ := hS
        refine ⟨t, S.flatten, rfl, hy, ?_⟩
        exact Language.join_mem_kstar (fun z hz => (hall z (List.mem_cons_of_mem _ hz)).1)
  · rintro ⟨t, u, rfl, ht, hu⟩
    rw [Language.mem_kstar] at hu ⊢
    obtain ⟨S, rfl, hall⟩ := hu
    refine ⟨(a :: t) :: S, by simp, ?_⟩
    intro y hy
    rcases List.mem_cons.mp hy with rfl | hy
    · exact ht
    · exact hall y hy

theorem deriv_iff (r : Regexp) (a : Char) (x : GoString) :
    x ∈ lang (deriv r a) ↔ a :: x ∈ lang r := by
  induction r generalizing x with
  | noMatch => simp [deriv, lang, Language.not_mem_zero]
  | emptyMatch => simp [deriv, lang, Language.not_mem_zero, Language.mem_one]
  | charClass p =>
    by_cases h : p a = true
    · simp only [deriv, h, if_true, mem_lang_charClass]
      simp only [lang, Language.mem_one]
      constructor
      · rintro rfl
        exact ⟨a, h, rfl⟩
      · rintro ⟨c, _, hc⟩
        simp only [List.cons.injEq] at hc
        exact hc.2
    · simp only [deriv, h, mem_lang_charClass]
      simp only [lang, Language.not_mem_zero, false_iff]
      rintro ⟨c, hc, hx⟩
      simp only [List.cons.injEq] at hx
      exact h (hx.1 ▸ hc)
  | alternate r s ihr ihs => simp [deriv, lang, Language.mem_add, ihr, ihs]
  | concat r s ihr ihs =>
    simp only [deriv, lang]
    rw [cons_mem_mul]
    by_cases h : nullable r = true
    · simp only [h, if_true, lang, Language.mem_add, Language.mem_mul, ihs]
      rw [← nullable_iff, h]
      constructor
      · rintro (⟨t, ht, u, hu, rfl⟩ | hs)
        · exact Or.inl ⟨t, u, rfl, (ihr t).mp ht, hu⟩
        · exact Or.inr ⟨rfl, hs⟩
      · rintro (⟨t, u, rfl, ht, hu⟩ | ⟨_, hs⟩)
        · exact Or.inl ⟨t, (ihr t).mpr ht, u, hu, rfl⟩
        · exact Or.inr hs
    · simp only [h, lang, Language.mem_mul]
      rw [← nullable_iff]
      constructor
      · rintro ⟨t, ht, u, hu, rfl⟩
        exact Or.inl ⟨t, u, rfl, (ihr t).mp ht, hu⟩
      · rintro (⟨t, u, rfl, ht, hu⟩ | ⟨hn, _⟩)
        · exact ⟨t, (ihr t).mpr ht, u, hu, rfl⟩
        · exact absurd hn h
  | star r ih =>
    simp only [deriv, lang]
    rw [cons_mem_kstar, Language.mem_mul]
    constructor
    · rintro ⟨t, ht, u, hu, rfl⟩
      exact ⟨t, u, rfl, (ih t).mp ht, hu⟩
    · rintro ⟨t, u, rfl, ht, hu⟩
      exact ⟨t, (ih t).mpr ht, u, hu, rfl⟩

theorem MatchString_iff (r : Regexp) (x : GoString) :
    MatchString r x = true ↔ x ∈ lang r := by
  induction x generalizing r with
  | nil => simp [MatchString, nullable_iff]
  | cons a x ih => simp [MatchString, ih, deriv_iff]

theorem lang_concat (r s : Regexp) : lang (concat r s) = lang r * lang s := rfl

theorem cons_mem_lang_charClass (p : Char → Bool) (a : Char) (t : GoString) :
    a :: t ∈ lang (charClass p) ↔ p a = true ∧ t = [] := by
  rw [mem_lang_charClass]
  constructor
  · rintro ⟨c, hc, h⟩
    simp only [List.cons.injEq] at h
    exact ⟨h.1 ▸ hc, h.2⟩
  · rintro ⟨ha, rfl⟩
    exact ⟨a, ha, rfl⟩

theorem mem_lang_literal (c : Char) (x : GoString) : x ∈ lang (literal c) ↔ x = [c] := by
  unfold literal
  rw [mem_lang_charClass]
  constructor
  · rintro ⟨d, hd, rfl⟩
    simp only [beq_iff_eq] at hd
    rw [hd]
  · rintro rfl
    exact ⟨c, by simp, rfl⟩

theorem mem_lang_star_charClass (p : Char → Bool) (x : GoString) :
    x ∈ lang (star (charClass p)) ↔ ∀ c ∈ x, p c = true := by
  induction x with
  | nil => simp [lang, Language.nil_mem_kstar]
  | cons a x ih =>
    have h := cons_mem_kstar (lang (charClass p)) a x
    simp only [lang] at h ih ⊢
    rw [h]
    constructor
    · rintro ⟨t, u, rfl, ht, hu⟩
      obtain ⟨ha, rfl⟩ := (cons_mem_lang_charClass p a t).mp ht
      intro c hc
      rcases List.mem_cons.mp hc with rfl | hc
      · exact ha
      · exact ih.mp hu c hc
    · intro hall
      refine ⟨[], x, rfl, (cons_mem_lang_charClass p a []).mpr ⟨hall a (List.mem_cons_self _ _), rfl⟩, ?_⟩
      exact ih.mpr (fun c hc => hall c (List.mem_cons_of_mem _ hc))

theorem mem_lang_repeatMin_charClass (n : Nat) (p : Char → Bool) (x : GoString) :
    x ∈ lang (repeatMin n (charClass p)) ↔ n ≤ x.length ∧ ∀ c ∈ x, p c = true := by
  induction n generalizing x with
  | zero => simp [repeatMin, mem_lang_star_charClass]
  | succ n ih =>
    simp only [repeatMin, lang_concat, Language.mem_mul]
    constructor
    · rintro ⟨t, ht, u, hu, rfl⟩
      obtain ⟨c, hc, rfl⟩ := (mem_lang_charClass p t).mp ht
      obtain ⟨hlen, hall⟩ := (ih u).mp hu
      refine ⟨by simpa using hlen, ?_⟩
      intro d hd
      rcases List.mem_cons.mp hd with rfl | hd
      · exact hc
      · exact hall d hd
    · rintro ⟨hlen, hall⟩
      cases x with
      | nil => simp at hlen
      | cons a x =>
        refine ⟨[a], ⟨a, hall a (List.mem_cons_self _ _), rfl⟩, x, ?_, rfl⟩
        exact (ih x).mpr ⟨by simpa using hlen, fun c hc => hall c (List.mem_cons_of_mem _ hc)⟩

theorem mem_lang_plus_charClass (p : Char → Bool) (x : GoString) :
    x ∈ lang (plus (charClass p)) ↔ x ≠ [] ∧ ∀ c ∈ x, p c = true := by
  have h := mem_lang_repeatMin_charClass 1 p x
  simp only [repeatMin] at h
  unfold plus
  rw [h]
  cases x <;> simp

end Regexp

end regexp

namespace entity
open strings regexp regexp.Regexp

theorem inRange_lower_iff (c : Char) :
    inRange 'a' 'z' c = true ↔ c ∈ "abcdefghijklmnopqrstuvwxyz".toList := by
  constructor
  · intro h
    simp only [inRange, Bool.and_eq_true, decide_eq_true_eq] at h
    obtain ⟨h1, h2⟩ := h
    have hc : c = Char.ofNat c.toNat := (Char.ofNat_toNat c).symm
    have h1 : 97 ≤ c.toNat := h1
    have h2 : c.toNat ≤ 122 := h2
    generalize c.toNat = n at hc h1 h2
    subst hc
    interval_cases n <;> decide
  · revert c
    decide

theorem inRange_upper_iff (c : Char) :
    inRange 'A' 'Z' c = true ↔ c ∈ "ABCDEFGHIJKLMNOPQRSTUVWXYZ".toList := by
  constructor
  · intro h
    simp only [inRange, Bool.and_eq_true, decide_eq_true_eq] at h
    obtain ⟨h1, h2⟩ := h
    have hc : c = Char.ofNat c.toNat := (Char.ofNat_toNat c).symm
    have h1 : 65 ≤ c.toNat := h1
    have h2 : c.toNat ≤ 90 := h2
    generalize c.toNat = n at hc h1 h2
    subst hc
    interval_cases n <;> decide
  · revert c
    decide

theorem inRange_digit_iff (c : Char) :
    inRange '0' '9' c = true ↔ c ∈ "0123456789".toList := by
  constructor
  · intro h
    simp only [inRange, Bool.and_eq_true, decide_eq_true_eq] at h
    obtain ⟨h1, h2⟩ := h
    have hc : c = Char.ofNat c.toNat := (Char.ofNat_toNat c).symm
    have h1 : 48 ≤ c.toNat := h1
    have h2 : c.toNat ≤ 57 := h2
    generalize c.toNat = n at hc h1 h2
    subst hc
    interval_cases n <;> decide
  · revert c
    decide

theorem letterClass_iff (c : Char) : letterClass c = true ↔ c ∈ asciiLetters := by
  have : asciiLetters = "abcdefghijklmnopqrstuvwxyz".toList ++ "ABCDEFGHIJKLMNOPQRSTUVWXYZ".toList := by
    decide
  rw [this, List.mem_append, ← inRange_lower_iff, ← inRange_upper_iff]
  simp [letterClass]

theorem localClass_iff (c : Char) : localClass c = true ↔ c ∈ localAlphabet := by
  unfold localAlphabet asciiDigits
  rw [List.mem_append, List.mem_append, ← letterClass_iff, ← inRange_digit_iff]
  simp [localClass, letterClass, or_assoc]

theorem domainClass_iff (c : Char) : domainClass c = true ↔ c ∈ domainAlphabet := by
  unfold domainAlphabet asciiDigits
  rw [List.mem_append, List.mem_append, ← letterClass_iff, ← inRange_digit_iff]
  simp [domainClass, letterClass, or_assoc]

theorem emailRegex_match_iff (e : GoString) :
    emailRegex.MatchString e = true ↔ EmailShape e := by
  rw [MatchString_iff]
  simp only [emailRegex, lang_concat, Language.mem_mul, mem_lang_plus_charClass,
    mem_lang_literal, mem_lang_repeatMin_charClass, localClass_iff, domainClass_iff,
    letterClass_iff]
  constructor
  · rintro ⟨L, hL, r1, ⟨a, rfl, r2, ⟨D, hD, r3, ⟨d, rfl, T, hT, rfl⟩, rfl⟩, rfl⟩, rfl⟩
    exact ⟨L, D, T, by simp, hL, hD, hT⟩
  · rintro ⟨L, D, T, rfl, hL, hD, hT⟩
    exact ⟨L, hL, _, ⟨_, rfl, _, ⟨D, hD, _, ⟨_, rfl, T, hT, rfl⟩, rfl⟩, rfl⟩, by simp⟩

end entity

namespace entity
open strings regexp regexp.Regexp

/-- C1: whenever `User.Update` returns an error, the user's `Username` and
`Email` after the call are exactly those before the call (and so is the
whole user). -/
theorem Update_error_restores_fields (u : User) (username email : GoString)
    (h : (u.Update username email).2 ≠ none) :
    (u.Update username email).1.Username = u.Username ∧
      (u.Update username email).1.Email = u.Email ∧
      (u.Update username email).1 = u := by
  unfold User.Update at h ⊢
  cases hv : User.Validate
      { u with Username := TrimSpace username, Email := TrimSpace email } with
  | none => simp [hv] at h
  | some err => simp [hv]

theorem Update_error_restores_fields_witness :
    ((User.mk 1 "old_username".toList "old@example.com".toList).Update
        "new_username".toList "invalid-email".toList).2 ≠ none ∧
      ((User.mk 1 "old_username".toList "old@example.com".toList).Update
          "new_username".toList "invalid-email".toList).1.Username = "old_username".toList ∧
      ((User.mk 1 "old_username".toList "old@example.com".toList).Update
          "new_username".toList "invalid-email".toList).1.Email = "old@example.com".toList ∧
      ((User.mk 1 "old_username".toList "old@example.com".toList).Update
          "new_username".toList "invalid-email".toList).1
        = User.mk 1 "old_username".toList "old@example.com".toList :=
  ⟨by decide,
    Update_error_restores_fields (User.mk 1 "old_username".toList "old@example.com".toList)
      "new_username".toList "invalid-email".toList (by decide)⟩

theorem Validate_ID_irrelevant (i j : Nat) (n e : GoString) :
    (User.mk i n e).Validate = (User.mk j n e).Validate := rfl

/-- C2: when the trimmed username and email pass validation, `User.Update`
returns no error and leaves the user with `Username` the trimmed username and
`Email` the trimmed email. -/
theorem Update_valid_commits_both (u : User) (username email : GoString) (i : Nat)
    (h : (User.mk i (TrimSpace username) (TrimSpace email)).Validate = none) :
    (u.Update username email).2 = none ∧
      (u.Update username email).1.Username = TrimSpace username ∧
      (u.Update username email).1.Email = TrimSpace email := by
  have hv : User.Validate
      { u with Username := TrimSpace username, Email := TrimSpace email } = none := by
    rw [← h]
    exact Validate_ID_irrelevant _ _ _ _
  unfold User.Update
  simp [hv]

theorem Update_valid_commits_both_witness :
    (User.mk 0 (TrimSpace " new_username ".toList) (TrimSpace "new@example.com\n".toList)).Validate
        = none ∧
      ((User.mk 1 "old_username".toList "old@example.com".toList).Update
          " new_username ".toList "new@example.com\n".toList).2 = none ∧
      ((User.mk 1 "old_username".toList "old@example.com".toList).Update
          " new_username ".toList "new@example.com\n".toList).1.Username
        = TrimSpace " new_username ".toList ∧
      ((User.mk 1 "old_username".toList "old@example.com".toList).Update
          " new_username ".toList "new@example.com\n".toList).1.Email
        = TrimSpace "new@example.com\n".toList :=
  ⟨by decide,
    Update_valid_commits_both (User.mk 1 "old_username".toList "old@example.com".toList)
      " new_username ".toList "new@example.com\n".toList 0 (by decide)⟩

theorem len_nil : len [] = 0 := rfl

theorem emailRegex_not_match_nil : emailRegex.MatchString [] = false := by decide

/-- C3: when the trimmed username has between 3 and 50 bytes and the trimmed
email matches the email pattern, `NewUser` returns no error and a user whose
`Username` and `Email` are the trimmed inputs and whose `ID` is zero. -/
theorem NewUser_succeeds (u e : GoString)
    (hlo : 3 ≤ len (TrimSpace u)) (hhi : len (TrimSpace u) ≤ 50)
    (hmatch : emailRegex.MatchString (TrimSpace e) = true) :
    NewUser u e = (some { ID := 0, Username := TrimSpace u, Email := TrimSpace e }, none) := by
  have hu : TrimSpace u ≠ [] := by
    intro h0
    rw [h0, len_nil] at hlo
    omega
  have he : TrimSpace e ≠ [] := by
    intro h0
    rw [h0, emailRegex_not_match_nil] at hmatch
    exact Bool.false_ne_true hmatch
  have hv : (User.mk 0 (TrimSpace u) (TrimSpace e)).Validate = none := by
    unfold User.Validate
    simp [hu, he, hmatch, Nat.not_lt.mpr hlo, Nat.not_lt.mpr hhi]
  unfold NewUser
  simp [hv]

theorem NewUser_succeeds_witness :
    (3 ≤ len (TrimSpace "  john_doe  ".toList) ∧ len (TrimSpace "  john_doe  ".toList) ≤ 50 ∧
      emailRegex.MatchString (TrimSpace "john@example.com".toList) = true) ∧
    NewUser "  john_doe  ".toList "john@example.com".toList
      = (some { ID := 0, Username := TrimSpace "  john_doe  ".toList,
                Email := TrimSpace "john@example.com".toList }, none) :=
  ⟨by decide,
    NewUser_succeeds "  john_doe  ".toList "john@example.com".toList
      (by decide) (by decide) (by decide)⟩

/-- C4: when the trimmed username has fewer than 3 or more than 50 bytes,
`NewUser` returns an error and a nil user, whatever the email. -/
theorem NewUser_rejects_bad_username_length (u e : GoString)
    (h : len (TrimSpace u) < 3 ∨ 50 < len (TrimSpace u)) :
    (NewUser u e).1 = none ∧ (NewUser u e).2 ≠ none := by
  have hv : ∃ err, (User.mk 0 (TrimSpace u) (TrimSpace e)).Validate = some err := by
    unfold User.Validate
    by_cases h0 : TrimSpace u = []
    · exact ⟨"username cannot be empty", by simp [h0]⟩
    · rcases h with h | h
      · exact ⟨"username must be at least 3 characters long", by simp [h0, h]⟩
      · have h3 : ¬ len (TrimSpace u) < 3 := by omega
        exact ⟨"username cannot exceed 50 characters", by simp [h0, h, h3]⟩
  obtain ⟨err, hv⟩ := hv
  unfold NewUser
  simp [hv]

theorem NewUser_rejects_bad_username_length_witness :
    (len (TrimSpace " jo ".toList) < 3 ∨ 50 < len (TrimSpace " jo ".toList)) ∧
      (NewUser " jo ".toList "john@example.com".toList).1 = none ∧
      (NewUser " jo ".toList "john@example.com".toList).2 ≠ none :=
  ⟨by decide,
    NewUser_rejects_bad_username_length " jo ".toList "john@example.com".toList (by decide)⟩

/-- C5: `User.Validate` returns the message of the earliest rule, in the order
empty username, username shorter than 3, username longer than 50, empty email,
malformed email, that the user violates, and nil exactly when the user
violates none of them. -/
theorem Validate_reports_first_failing_rule (u : User) :
    u.Validate = firstFailingRule u ∧
      (u.Validate = none ↔ ∀ r ∈ validationRules, r.1 u = false) := by
  unfold User.Validate firstFailingRule validationRules User.IsValidEmail
  by_cases h1 : u.Username = []
  · simp [h1, List.find?, len_nil]
  · by_cases h2 : len u.Username < 3
    · simp [h1, h2, List.find?]
    · by_cases h3 : len u.Username > 50
      · simp [h1, h2, h3, List.find?]
      · by_cases h4 : u.Email = []
        · simp [h1, h2, h3, h4, List.find?]
        · by_cases h5 : emailRegex.MatchString u.Email = true
          · simp [h1, h2, h3, h4, h5, List.find?]
          · simp [h1, h2, h3, h4, h5, List.find?]

end entity

namespace strings

theorem TrimSpace_eq_self_of_no_space (s : GoString) (h : ∀ c ∈ s, isSpace c = false) :
    TrimSpace s = s := by
  unfold TrimSpace
  have h1 : s.dropWhile isSpace = s := by
    cases s with
    | nil => rfl
    | cons a s =>
      exact List.dropWhile_cons_of_neg (by simp [h a (List.mem_cons_self _ _)])
  rw [h1, List.rdropWhile_eq_self_iff]
  intro hl
  simp [h _ (List.getLast_mem hl)]

theorem TrimSpace_dropWhile (s : GoString) :
    (TrimSpace s).dropWhile isSpace = TrimSpace s := by
  unfold TrimSpace
  obtain ⟨r, hr⟩ := List.rdropWhile_prefix isSpace (l := s.dropWhile isSpace)
  cases ht : List.rdropWhile isSpace (s.dropWhile isSpace) with
  | nil => rfl
  | cons a t =>
    rw [ht] at hr
    have hne : s.dropWhile isSpace ≠ [] := by
      rw [← hr]
      simp
    have ha := List.head_dropWhile_not isSpace s hne
    have hhead : (s.dropWhile isSpace).head hne = a := by
      simp [← hr]
    rw [hhead] at ha
    exact List.dropWhile_cons_of_neg (by simp [ha])

theorem TrimSpace_idempotent (s : GoString) : TrimSpace (TrimSpace s) = TrimSpace s := by
  have h : TrimSpace (TrimSpace s) = ((TrimSpace s).dropWhile isSpace).rdropWhile isSpace := rfl
  rw [h, TrimSpace_dropWhile]
  unfold TrimSpace
  exact List.rdropWhile_idempotent _ _

end strings

namespace entity
open strings regexp regexp.Regexp

theorem EmailShape_at_mem (e : GoString) (h : EmailShape e) : '@' ∈ e := by
  obtain ⟨L, D, T, rfl, -, -, -⟩ := h
  simp

theorem EmailShape_head (e : GoString) (h : EmailShape e) : e.head? ≠ some '@' := by
  obtain ⟨L, D, T, rfl, ⟨hL, hLc⟩, -, -⟩ := h
  cases L with
  | nil => exact absurd rfl hL
  | cons c L =>
    intro hc
    simp only [List.cons_append, List.head?_cons, Option.some.injEq] at hc
    have hmem := hLc c (List.mem_cons_self _ _)
    rw [hc] at hmem
    revert hmem
    decide

theorem EmailShape_getLast (e : GoString) (h : EmailShape e) : e.getLast? ≠ some '@' := by
  obtain ⟨L, D, T, rfl, -, -, ⟨hT, hTc⟩⟩ := h
  rcases List.eq_nil_or_concat T with rfl | ⟨T, t, rfl⟩
  · simp at hT
  · intro hc
    have hx : L ++ '@' :: (D ++ '.' :: T.concat t) = (L ++ '@' :: (D ++ '.' :: T)) ++ [t] := by
      simp
    rw [hx, List.getLast?_concat] at hc
    simp only [Option.some.injEq] at hc
    have hmem := hTc t (by simp)
    rw [hc] at hmem
    revert hmem
    decide

theorem EmailShape_no_space (e : GoString) (h : EmailShape e) :
    ∀ c ∈ e, isSpace c = false := by
  obtain ⟨L, D, T, rfl, ⟨-, hLc⟩, ⟨-, hDc⟩, ⟨-, hTc⟩⟩ := h
  have h1 : ∀ c ∈ localAlphabet, isSpace c = false := by decide
  have h2 : ∀ c ∈ domainAlphabet, isSpace c = false := by decide
  have h3 : ∀ c ∈ asciiLetters, isSpace c = false := by decide
  intro c hc
  simp only [List.mem_append, List.mem_cons] at hc
  rcases hc with hc | rfl | hc | rfl | hc
  · exact h1 c (hLc c hc)
  · decide
  · exact h2 c (hDc c hc)
  · decide
  · exact h3 c (hTc c hc)

end entity

namespace entity
open strings regexp regexp.Regexp

/-- C6: `User.IsValidEmail` accepts an email exactly when it has the shape
`L ++ "@" ++ D ++ "." ++ T` with `L` non-empty over `[A-Za-z0-9._%+-]`, `D`
non-empty over `[A-Za-z0-9.-]` and `T` two or more ASCII letters, the whole
string being matched; and the email rule of `User.Validate` is the one that
fails exactly when the earlier rules pass and the email lacks that shape. -/
theorem IsValidEmail_iff_EmailShape (i : Nat) (n e : GoString) :
    ((User.mk i n e).IsValidEmail = true ↔ EmailShape e) ∧
      ((User.mk i n e).Validate = some "invalid email format" ↔
        (3 ≤ len n ∧ len n ≤ 50) ∧ e ≠ [] ∧ ¬ EmailShape e) := by
  refine ⟨emailRegex_match_iff e, ?_⟩
  rw [← emailRegex_match_iff]
  unfold User.Validate
  by_cases h1 : n = []
  · simp [h1, len_nil]
  · by_cases h2 : len n < 3
    · have : ¬ 3 ≤ len n := by omega
      simp [h1, h2, this]
    · by_cases h3 : len n > 50
      · have : ¬ len n ≤ 50 := by omega
        simp [h1, h2, h3, this]
      · by_cases h4 : e = []
        · simp [h1, h2, h3, h4]
        · have h5 : 3 ≤ len n := by omega
          have h6 : len n ≤ 50 := by omega
          by_cases h7 : emailRegex.MatchString e = true
          · simp [h1, h2, h3, h4, h5, h6, h7]
          · simp [h1, h2, h3, h4, h5, h6, h7]

theorem Validate_email_error (i : Nat) (n e : GoString)
    (hlo : 3 ≤ len n) (hhi : len n ≤ 50) (h : emailRegex.MatchString e = false) :
    (User.mk i n e).Validate = some "email cannot be empty" ∨
      (User.mk i n e).Validate = some "invalid email format" := by
  have h1 : n ≠ [] := by
    intro h0
    rw [h0, len_nil] at hlo
    omega
  have h2 : ¬ len n < 3 := by omega
  have h3 : ¬ len n > 50 := by omega
  unfold User.Validate
  by_cases h4 : e = []
  · left
    simp [h1, h2, h3, h4]
  · right
    simp [h1, h2, h3, h4, h]

/-- C7: for a valid username and an email whose trimmed form contains no `@`,
or begins with `@`, or ends with `@`, `NewUser` returns a nil user and an
email error, and `IsValidEmail` is false for the trimmed and for the untrimmed
email. -/
theorem NewUser_rejects_email_without_at_parts (u e : GoString)
    (hlo : 3 ≤ len (TrimSpace u)) (hhi : len (TrimSpace u) ≤ 50)
    (h : '@' ∉ TrimSpace e ∨ (TrimSpace e).head? = some '@' ∨
      (TrimSpace e).getLast? = some '@') :
    (NewUser u e).1 = none ∧
      ((NewUser u e).2 = some "email cannot be empty" ∨
        (NewUser u e).2 = some "invalid email format") ∧
      (∀ (i : Nat) (n : GoString), (User.mk i n (TrimSpace e)).IsValidEmail = false) ∧
      (∀ (i : Nat) (n : GoString), (User.mk i n e).IsValidEmail = false) := by
  have hshape : ¬ EmailShape (TrimSpace e) := by
    intro hs
    rcases h with h | h | h
    · exact h (EmailShape_at_mem _ hs)
    · exact EmailShape_head _ hs h
    · exact EmailShape_getLast _ hs h
  have hm : emailRegex.MatchString (TrimSpace e) = false := by
    rw [← Bool.not_eq_true, emailRegex_match_iff]
    exact hshape
  have hraw : emailRegex.MatchString e = false := by
    rw [← Bool.not_eq_true, emailRegex_match_iff]
    intro hs
    rw [TrimSpace_eq_self_of_no_space e (EmailShape_no_space e hs)] at hshape
    exact hshape hs
  have hv := Validate_email_error 0 (TrimSpace u) (TrimSpace e) hlo hhi hm
  refine ⟨?_, ?_, fun _ _ => hm, fun _ _ => hraw⟩
  · unfold NewUser
    rcases hv with hv | hv <;> simp [hv]
  · unfold NewUser
    rcases hv with hv | hv <;> simp [hv]

theorem NewUser_rejects_email_without_at_parts_witness :
    ((3 ≤ len (TrimSpace "john_doe".toList) ∧ len (TrimSpace "john_doe".toList) ≤ 50) ∧
      '@' ∉ TrimSpace "invalid-email".toList ∧
      (TrimSpace "@example.com".toList).head? = some '@' ∧
      (TrimSpace "john@".toList).getLast? = some '@') ∧
    ((NewUser "john_doe".toList "invalid-email".toList).1 = none ∧
      (User.mk 0 [] "invalid-email".toList).IsValidEmail = false) ∧
    ((NewUser "john_doe".toList "@example.com".toList).1 = none ∧
      (User.mk 0 [] "@example.com".toList).IsValidEmail = false) ∧
    ((NewUser "john_doe".toList "john@".toList).1 = none ∧
      (User.mk 0 [] "john@".toList).IsValidEmail = false) :=
  ⟨by decide,
    ⟨(NewUser_rejects_email_without_at_parts "john_doe".toList "invalid-email".toList
        (by decide) (by decide) (Or.inl (by decide))).1,
      (NewUser_rejects_email_without_at_parts "john_doe".toList "invalid-email".toList
        (by decide) (by decide) (Or.inl (by decide))).2.2.2 0 []⟩,
    ⟨(NewUser_rejects_email_without_at_parts "john_doe".toList "@example.com".toList
        (by decide) (by decide) (Or.inr (Or.inl (by decide)))).1,
      (NewUser_rejects_email_without_at_parts "john_doe".toList "@example.com".toList
        (by decide) (by decide) (Or.inr (Or.inl (by decide)))).2.2.2 0 []⟩,
    ⟨(NewUser_rejects_email_without_at_parts "john_doe".toList "john@".toList
        (by decide) (by decide) (Or.inr (Or.inr (by decide)))).1,
      (NewUser_rejects_email_without_at_parts "john_doe".toList "john@".toList
        (by decide) (by decide) (Or.inr (Or.inr (by decide)))).2.2.2 0 []⟩⟩

/-- C8: evaluation of `User.Validate` on a username of a single character
encoded on three bytes: it is accepted, although it has fewer than 3
characters. -/
theorem Validate_accepts_one_character_username :
    (User.mk 0 [Char.ofNat 0x65E5] "a@b.co".toList).Validate = none ∧
      ([Char.ofNat 0x65E5] : GoString).length = 1 ∧
      len [Char.ofNat 0x65E5] = 3 := by
  decide

/-- C9, as stated, fails: `User.Validate` accepts a username of three spaces,
which is empty after trimming. -/
theorem Validate_accepts_whitespace_username :
    (User.mk 0 "   ".toList "a@b.co".toList).Validate = none ∧
      TrimSpace (User.mk 0 "   ".toList "a@b.co".toList).Username = [] := by
  decide

theorem Validate_none_username (u : User) (h : u.Validate = none) :
    u.Username ≠ [] ∧ 3 ≤ len u.Username ∧ len u.Username ≤ 50 := by
  unfold User.Validate at h
  by_cases h1 : u.Username = []
  · simp [h1] at h
  · by_cases h2 : len u.Username < 3
    · simp [h1, h2] at h
    · by_cases h3 : len u.Username > 50
      · simp [h1, h2, h3] at h
      · exact ⟨h1, by omega, by omega⟩

theorem NewUser_some (un em : GoString) (v : User) (h : (NewUser un em).1 = some v) :
    v = User.mk 0 (TrimSpace un) (TrimSpace em) ∧ v.Validate = none := by
  unfold NewUser at h
  cases hv : (User.mk 0 (TrimSpace un) (TrimSpace em)).Validate with
  | some err => simp [hv] at h
  | none =>
    simp only [hv, Option.some.injEq] at h
    subst h
    exact ⟨rfl, hv⟩

theorem Update_none (u : User) (un em : GoString) (h : (u.Update un em).2 = none) :
    (u.Update un em).1 = User.mk u.ID (TrimSpace un) (TrimSpace em) ∧
      (u.Update un em).1.Validate = none := by
  unfold User.Update at h ⊢
  cases hv : (User.mk u.ID (TrimSpace un) (TrimSpace em)).Validate with
  | some err => simp [hv] at h
  | none => simp [hv]

/-- C9, amended: a user on which `User.Validate` succeeds has a non-empty
username; and a user returned by `NewUser`, or left by a successful
`User.Update`, both of which trim before validating, has a username that is
non-empty after trimming surrounding whitespace. -/
theorem username_nonempty_after_trim :
    (∀ u : User, u.Validate = none → u.Username ≠ []) ∧
      (∀ (un em : GoString) (v : User), (NewUser un em).1 = some v →
        TrimSpace v.Username ≠ []) ∧
      (∀ (u : User) (un em : GoString), (u.Update un em).2 = none →
        TrimSpace (u.Update un em).1.Username ≠ []) := by
  refine ⟨fun u h => (Validate_none_username u h).1, ?_, ?_⟩
  · intro un em v h
    obtain ⟨rfl, hv⟩ := NewUser_some un em v h
    have := (Validate_none_username _ hv).1
    simpa [TrimSpace_idempotent] using this
  · intro u un em h
    obtain ⟨he, hv⟩ := Update_none u un em h
    have := (Validate_none_username _ hv).1
    rw [he] at this ⊢
    simpa [TrimSpace_idempotent] using this

theorem username_nonempty_after_trim_witness :
    ((User.mk 7 "   ".toList "a@b.co".toList).Validate = none ∧
      (User.mk 7 "   ".toList "a@b.co".toList).Username ≠ []) ∧
    ((NewUser "  john_doe  ".toList "john@example.com".toList).1
        = some (User.mk 0 "john_doe".toList "john@example.com".toList) ∧
      TrimSpace (User.mk 0 "john_doe".toList "john@example.com".toList).Username ≠ []) ∧
    (((User.mk 1 "old_username".toList "old@example.com".toList).Update
        " new_username ".toList "new@example.com".toList).2 = none ∧
      TrimSpace ((User.mk 1 "old_username".toList "old@example.com".toList).Update
        " new_username ".toList "new@example.com".toList).1.Username ≠ []) :=
  ⟨⟨by decide, username_nonempty_after_trim.1 _ (by decide)⟩,
    ⟨by decide, username_nonempty_after_trim.2.1 "  john_doe  ".toList "john@example.com".toList
      _ (by decide)⟩,
    ⟨by decide, username_nonempty_after_trim.2.2 _ _ _ (by decide)⟩⟩

end entity

namespace entity
open strings regexp regexp.Regexp

theorem domainPart_of_shape (L D T : GoString)
    (hL : ∀ c ∈ L, c ∈ localAlphabet) (hT : ∀ c ∈ T, c ∈ asciiLetters) :
    domainPart (L ++ '@' :: (D ++ '.' :: T)) = D := by
  have h1 : ∀ c ∈ localAlphabet, (c != '@') = true := by decide
  have h2 : ∀ c ∈ asciiLetters, (c != '.') = true := by decide
  have hd1 : (L ++ '@' :: (D ++ '.' :: T)).dropWhile (fun c => c != '@')
      = '@' :: (D ++ '.' :: T) := by
    rw [List.dropWhile_append_of_pos (fun c hc => h1 c (hL c hc))]
    exact List.dropWhile_cons_of_neg (by decide)
  have hd2 : (T.reverse ++ '.' :: D.reverse).dropWhile (fun c => c != '.')
      = '.' :: D.reverse := by
    rw [List.dropWhile_append_of_pos (fun c hc => h2 c (hT c (List.mem_reverse.mp hc)))]
    exact List.dropWhile_cons_of_neg (by decide)
  unfold domainPart
  simp only [hd1, List.drop_succ_cons, List.drop_zero, List.reverse_append, List.reverse_cons,
    List.append_assoc, List.singleton_append, hd2, List.reverse_reverse]

/-- C10, as stated, fails: the email `john@.sub..example..com` is accepted by
`IsValidEmail` and by `Validate`, and its domain part `.sub..example.` has a
leading dot, a trailing dot and two consecutive dots. -/
theorem valid_email_with_empty_domain_labels :
    (User.mk 0 "john_doe".toList "john@.sub..example..com".toList).IsValidEmail = true ∧
      (User.mk 0 "john_doe".toList "john@.sub..example..com".toList).Validate = none ∧
      domainPart "john@.sub..example..com".toList = ".sub..example.".toList ∧
      dotSeparatedLabels (domainPart "john@.sub..example..com".toList) = false := by
  decide

/-- C10, amended: for every email accepted by validation, the domain part (the
text between `@` and the final dot) is a non-empty string over
`[A-Za-z0-9.-]`, standing between a local part followed by `@` and a dot
followed by the final label. -/
theorem valid_email_domainPart (i : Nat) (n e : GoString)
    (h : (User.mk i n e).IsValidEmail = true) :
    domainPart e ≠ [] ∧ (∀ c ∈ domainPart e, c ∈ domainAlphabet) ∧
      ∃ L T : GoString, e = L ++ '@' :: (domainPart e ++ '.' :: T) ∧
        '@' ∉ L ∧ '.' ∉ T := by
  obtain ⟨L, D, T, rfl, ⟨-, hLc⟩, ⟨hD, hDc⟩, ⟨-, hTc⟩⟩ := (emailRegex_match_iff e).mp h
  rw [domainPart_of_shape L D T hLc hTc]
  refine ⟨hD, hDc, L, T, rfl, ?_, ?_⟩
  · intro hmem
    have := hLc _ hmem
    revert this
    decide
  · intro hmem
    have := hTc _ hmem
    revert this
    decide

theorem valid_email_domainPart_witness :
    (User.mk 0 [] "john@sub.example.com".toList).IsValidEmail = true ∧
      domainPart "john@sub.example.com".toList ≠ [] ∧
      (∀ c ∈ domainPart "john@sub.example.com".toList, c ∈ domainAlphabet) ∧
      ∃ L T : GoString, "john@sub.example.com".toList
          = L ++ '@' :: (domainPart "john@sub.example.com".toList ++ '.' :: T) ∧
        '@' ∉ L ∧ '.' ∉ T :=
  ⟨by decide, valid_email_domainPart 0 [] "john@sub.example.com".toList (by decide)⟩

end entity

namespace strings

theorem Split_go_single (a : Char) (name rest cur : GoString) (h : a ∉ name) :
    Split.go [a] (name ++ a :: rest) 0 cur
      = (cur.reverse ++ name) :: Split.go [a] rest 0 [] := by
  induction name generalizing cur with
  | nil => simp [Split.go]
  | cons c name ih =>
    have hc : a ≠ c := fun hac => h (hac ▸ List.mem_cons_self _ _)
    have hn : a ∉ name := fun hm => h (List.mem_cons_of_mem _ hm)
    simp [Split.go, hc, ih _ hn]

theorem Split_go_single_no_sep (a : Char) (name cur : GoString) (h : a ∉ name) :
    Split.go [a] name 0 cur = [cur.reverse ++ name] := by
  induction name generalizing cur with
  | nil => simp [Split.go]
  | cons c name ih =>
    have hc : a ≠ c := fun hac => h (hac ▸ List.mem_cons_self _ _)
    have hn : a ∉ name := fun hm => h (List.mem_cons_of_mem _ hm)
    simp [Split.go, hc, ih _ hn]

end strings

namespace entity
open strings

/-- C11: `GetDisplayName` returns `Username` when it is non-empty; with an
empty `Username` and an `Email` containing `@`, the text of `Email` before its
first `@`; with both empty, the label "Unknown User". -/
theorem GetDisplayName_cases (u : User) :
    (u.Username ≠ [] → u.GetDisplayName = u.Username) ∧
      (∀ name rest : GoString, u.Username = [] → u.Email = name ++ '@' :: rest →
        '@' ∉ name → u.GetDisplayName = name) ∧
      (u.Username = [] → u.Email = [] → u.GetDisplayName = "Unknown User".toList) := by
  refine ⟨?_, ?_, ?_⟩
  · intro h
    simp [User.GetDisplayName, h]
  · intro name rest hu he hname
    have hsplit : Split (name ++ '@' :: rest) ['@']
        = name :: Split.go ['@'] rest 0 [] := by
      have := Split_go_single '@' name rest [] hname
      simpa [Split] using this
    simp [User.GetDisplayName, hu, he, hsplit]
  · intro hu he
    simp [User.GetDisplayName, hu, he]

theorem GetDisplayName_cases_witness :
    (User.mk 0 [] "john.doe+test@example.com".toList).GetDisplayName = "john.doe+test".toList ∧
      (User.mk 0 [] []).GetDisplayName = "Unknown User".toList ∧
      (User.mk 0 "john_doe".toList "john@example.com".toList).GetDisplayName
        = "john_doe".toList :=
  ⟨(GetDisplayName_cases (User.mk 0 [] "john.doe+test@example.com".toList)).2.1
      "john.doe+test".toList "example.com".toList rfl (by decide) (by decide),
    (GetDisplayName_cases (User.mk 0 [] [])).2.2 rfl rfl,
    (GetDisplayName_cases (User.mk 0 "john_doe".toList "john@example.com".toList)).1
      (by decide)⟩

end entity

namespace repository
open entity

theorem lt_nextID (s : List User) (r : User) (h : r ∈ s) : r.ID < nextID s := by
  unfold nextID
  induction s with
  | nil => simp at h
  | cons a s ih =>
    simp only [List.map_cons, List.foldr_cons]
    rcases List.mem_cons.mp h with rfl | h
    · omega
    · have := ih h
      omega

theorem memStore_find_created (s : List User) (user : User) :
    (memStore.FindByID (nextID s) (s ++ [{ user with ID := nextID s }])).1
      = (some { user with ID := nextID s }, none) := by
  have hfind : (s ++ [{ user with ID := nextID s }]).find? (fun r => decide (r.ID = nextID s))
      = some { user with ID := nextID s } := by
    rw [List.find?_append]
    have hnone : s.find? (fun r => decide (r.ID = nextID s)) = none := by
      rw [List.find?_eq_none]
      intro r hr
      have := lt_nextID s r hr
      simp
      omega
    simp [hnone]
  simp [memStore, hfind]

theorem memStore_Create_eq (user : User) (s : List User) :
    memStore.Create user s =
      if s.any (fun r => r.Username = user.Username || r.Email = user.Email) then
        ((user, some "UNIQUE constraint failed"), s)
      else
        (({ user with ID := nextID s }, none), s ++ [{ user with ID := nextID s }]) :=
  rfl

theorem memStore_CreateContract (st : List User) : CreateContract memStore st := by
  intro user created st1 h
  rw [memStore_Create_eq] at h
  split at h
  · simp at h
  · simp only [Prod.mk.injEq, and_true] at h
    obtain ⟨rfl, rfl⟩ := h
    refine ⟨?_, rfl, rfl, memStore_find_created st user⟩
    simp [nextID]

theorem memStore_EnforcesUniqueness (st : List User) : EnforcesUniqueness memStore st := by
  intro user created st1 h other hother
  rw [memStore_Create_eq] at h
  split at h
  · simp at h
  · simp only [Prod.mk.injEq, and_true] at h
    obtain ⟨-, rfl⟩ := h
    have hany : ((st ++ [{ user with ID := nextID st }]).any
        (fun r => r.Username = other.Username || r.Email = other.Email)) = true := by
      rw [List.any_append]
      rcases hother with ho | ho <;> simp [ho]
    rw [memStore_Create_eq, if_pos hany]
    simp

end repository

namespace service
open entity strings repository

theorem RegisterUser_eq {σ : Type} (s : UserService σ) (username email : GoString) (st : σ) :
    s.RegisterUser username email st
      = ((some (s.userRepo.Create (User.mk 0 username email) st).1.1,
          (s.userRepo.Create (User.mk 0 username email) st).1.2),
        (s.userRepo.Create (User.mk 0 username email) st).2) :=
  rfl

theorem UpdateUser_of_find_error {σ : Type} (s : UserService σ) (id : Nat)
    (username email : GoString) (st : σ) (err : String)
    (h : (s.userRepo.FindByID id st).1.2 = some err) :
    s.UpdateUser id username email st
      = some ((none, some err), (s.userRepo.FindByID id st).2) := by
  unfold UserService.UpdateUser
  simp only [h]

theorem UpdateUser_of_found {σ : Type} (s : UserService σ) (id : Nat)
    (username email : GoString) (st : σ) (user : User)
    (h : (s.userRepo.FindByID id st).1 = (some user, none)) :
    s.UpdateUser id username email st
      = some ((some (s.userRepo.Update { user with Username := username, Email := email }
            (s.userRepo.FindByID id st).2).1.1,
          (s.userRepo.Update { user with Username := username, Email := email }
            (s.userRepo.FindByID id st).2).1.2),
        (s.userRepo.Update { user with Username := username, Email := email }
          (s.userRepo.FindByID id st).2).2) := by
  have h1 : (s.userRepo.FindByID id st).1.1 = some user := by rw [h]
  have h2 : (s.userRepo.FindByID id st).1.2 = none := by rw [h]
  unfold UserService.UpdateUser
  simp only [h1, h2]

/-- C12: evaluation of `RegisterUser` on a username and an email that `NewUser`
rejects, over the in-memory store: the service calls `Create` with the values
as given and returns the created user with no error. -/
theorem RegisterUser_accepts_invalid_data :
    (NewUser "ab".toList "invalid-email".toList).1 = none ∧
      (NewUser "ab".toList "invalid-email".toList).2 ≠ none ∧
      (UserService.mk (traced memStore)).RegisterUser "ab".toList "invalid-email".toList ([], [])
        = ((some (User.mk 1 "ab".toList "invalid-email".toList), none),
            ([User.mk 1 "ab".toList "invalid-email".toList],
              [Call.Create (User.mk 0 "ab".toList "invalid-email".toList)])) := by
  decide

/-- C13: when `FindByID` returns a user without error and `Update` of that user
carrying the new username and email succeeds, leaving the two fields of the
entity as it received them, `UpdateUser` returns no error and the entity with
`Username` and `Email` exactly as given, and the entity handed to `Update` is
the fetched one carrying exactly those values. -/
theorem UpdateUser_applies_fields_directly {σ : Type} (s : UserService σ) (id : Nat)
    (username email : GoString) (st st1 st2 : σ) (user left : User)
    (hfind : s.userRepo.FindByID id st = ((some user, none), st1))
    (hupdate : s.userRepo.Update { user with Username := username, Email := email } st1
      = ((left, none), st2))
    (hname : left.Username = username) (hmail : left.Email = email) :
    s.UpdateUser id username email st
        = some ((some (User.mk left.ID username email), none), st2) ∧
      (UserService.mk (traced s.userRepo)).UpdateUser id username email (st, [])
        = some ((some (User.mk left.ID username email), none),
            (st2, [Call.FindByID id, Call.Update (User.mk user.ID username email)])) := by
  have hleft : left = User.mk left.ID username email := by
    cases left
    simp only at hname hmail
    subst hname hmail
    rfl
  constructor
  · rw [UpdateUser_of_found s id username email st user (by rw [hfind])]
    simp only [hfind, hupdate]
    rw [← hleft]
  · rw [UpdateUser_of_found (UserService.mk (traced s.userRepo)) id username email (st, []) user
      (by simp only [traced, hfind])]
    simp only [traced, hfind, hupdate, List.nil_append, List.singleton_append]
    rw [← hleft]

theorem UpdateUser_applies_fields_directly_witness :
    (memStore.FindByID 1 [User.mk 1 "old".toList "old@example.com".toList]
        = ((some (User.mk 1 "old".toList "old@example.com".toList), none),
            [User.mk 1 "old".toList "old@example.com".toList]) ∧
      memStore.Update { User.mk 1 "old".toList "old@example.com".toList with
          Username := "  new ".toList, Email := "not an email".toList }
          [User.mk 1 "old".toList "old@example.com".toList]
        = ((User.mk 1 "  new ".toList "not an email".toList, none),
            [User.mk 1 "  new ".toList "not an email".toList]) ∧
      (User.mk 1 "  new ".toList "not an email".toList).Username = "  new ".toList ∧
      (User.mk 1 "  new ".toList "not an email".toList).Email = "not an email".toList) ∧
    (UserService.mk memStore).UpdateUser 1 "  new ".toList "not an email".toList
        [User.mk 1 "old".toList "old@example.com".toList]
      = some ((some (User.mk 1 "  new ".toList "not an email".toList), none),
          [User.mk 1 "  new ".toList "not an email".toList]) ∧
    (UserService.mk (traced memStore)).UpdateUser 1 "  new ".toList "not an email".toList
        ([User.mk 1 "old".toList "old@example.com".toList], [])
      = some ((some (User.mk 1 "  new ".toList "not an email".toList), none),
          ([User.mk 1 "  new ".toList "not an email".toList],
            [Call.FindByID 1, Call.Update (User.mk 1 "  new ".toList "not an email".toList)])) :=
  ⟨by decide,
    UpdateUser_applies_fields_directly (UserService.mk memStore) 1 "  new ".toList
      "not an email".toList [User.mk 1 "old".toList "old@example.com".toList]
      [User.mk 1 "old".toList "old@example.com".toList]
      [User.mk 1 "  new ".toList "not an email".toList]
      (User.mk 1 "old".toList "old@example.com".toList)
      (User.mk 1 "  new ".toList "not an email".toList) (by decide) (by decide) rfl rfl⟩

/-- C14: when `FindByID` fails with the error `E`, `UpdateUser` returns `E` and
a nil user, and the store receives the `FindByID` call only: `Update` is not
invoked. -/
theorem UpdateUser_not_found_no_mutation {σ : Type} (s : UserService σ) (id : Nat)
    (username email : GoString) (st : σ) (E : String)
    (hfind : (s.userRepo.FindByID id st).1.2 = some E) :
    s.UpdateUser id username email st
        = some ((none, some E), (s.userRepo.FindByID id st).2) ∧
      (UserService.mk (traced s.userRepo)).UpdateUser id username email (st, [])
        = some ((none, some E), ((s.userRepo.FindByID id st).2, [Call.FindByID id])) := by
  constructor
  · exact UpdateUser_of_find_error s id username email st E hfind
  · rw [UpdateUser_of_find_error (UserService.mk (traced s.userRepo)) id username email
      (st, []) E (by simpa only [traced] using hfind)]
    simp only [traced, List.nil_append]

theorem UpdateUser_not_found_no_mutation_witness :
    (memStore.FindByID 99999 [User.mk 1 "old".toList "old@example.com".toList]).1.2
        = some "record not found" ∧
    (UserService.mk memStore).UpdateUser 99999 "nonexistent".toList
        "nonexistent@example.com".toList [User.mk 1 "old".toList "old@example.com".toList]
      = some ((none, some "record not found"),
          (memStore.FindByID 99999 [User.mk 1 "old".toList "old@example.com".toList]).2) ∧
    (UserService.mk (traced memStore)).UpdateUser 99999 "nonexistent".toList
        "nonexistent@example.com".toList
        ([User.mk 1 "old".toList "old@example.com".toList], [])
      = some ((none, some "record not found"),
          ((memStore.FindByID 99999 [User.mk 1 "old".toList "old@example.com".toList]).2,
            [Call.FindByID 99999])) :=
  ⟨by decide,
    UpdateUser_not_found_no_mutation (UserService.mk memStore) 99999 "nonexistent".toList
      "nonexistent@example.com".toList [User.mk 1 "old".toList "old@example.com".toList]
      "record not found" (by decide)⟩

/-- C15: evaluation of `UpdateUser` on an existing user and on a username and
an email that entity validation rejects, over the in-memory store: the service
returns the user with no error and the store holds the invalid values. -/
theorem UpdateUser_persists_invalid_data :
    (User.mk 1 "ab".toList "invalid-email".toList).Validate ≠ none ∧
      ((User.mk 1 "testuser".toList "test@example.com".toList).Update
        "ab".toList "invalid-email".toList).2 ≠ none ∧
      (UserService.mk memStore).UpdateUser 1 "ab".toList "invalid-email".toList
          [User.mk 1 "testuser".toList "test@example.com".toList]
        = some ((some (User.mk 1 "ab".toList "invalid-email".toList), none),
            [User.mk 1 "ab".toList "invalid-email".toList]) := by
  decide

end service

namespace service
open entity strings repository

/-- C16, as stated, fails: over the in-memory store holding a user with the
same email, `RegisterUser` returns a non-nil user together with a non-nil
error, and so does `UpdateUser` when `Update` reports a conflict. -/
theorem RegisterUser_returns_user_with_error :
    ((UserService.mk memStore).RegisterUser "user2".toList "duplicate@example.com".toList
        [User.mk 1 "user1".toList "duplicate@example.com".toList]).1
      = (some (User.mk 0 "user2".toList "duplicate@example.com".toList),
          some "UNIQUE constraint failed") ∧
    ((UserService.mk memStore).UpdateUser 2 "user1".toList "other@example.com".toList
        [User.mk 1 "user1".toList "duplicate@example.com".toList,
          User.mk 2 "user2".toList "second@example.com".toList]).map Prod.fst
      = some (some (User.mk 2 "user1".toList "other@example.com".toList),
          some "UNIQUE constraint failed") := by
  decide

/-- C16, amended: `RegisterUser` always returns a non-nil user, the entity as
`Create` left it, together with the error of `Create`, nil or not; `GetUser`
returns the pair of `FindByID` as it is; `UpdateUser` returns an error and a
nil user when `FindByID` reports an error, and, when `FindByID` returns a user
without error, the entity it handed to `Update`, that user carrying the new
fields, as `Update` left it, together with the error of `Update`, nil or
not. -/
theorem orchestrator_results {σ : Type} (s : UserService σ) (st : σ) :
    (∀ username email : GoString,
        (s.RegisterUser username email st).1
          = (some (s.userRepo.Create (User.mk 0 username email) st).1.1,
              (s.userRepo.Create (User.mk 0 username email) st).1.2)) ∧
      (∀ id : Nat, (s.GetUser id st).1 = (s.userRepo.FindByID id st).1) ∧
      (∀ (id : Nat) (username email : GoString) (E : String),
        (s.userRepo.FindByID id st).1.2 = some E →
          (s.UpdateUser id username email st).map Prod.fst = some (none, some E)) ∧
      (∀ (id : Nat) (username email : GoString) (user : User),
        (s.userRepo.FindByID id st).1 = (some user, none) →
          (s.UpdateUser id username email st).map Prod.fst
            = some (some (s.userRepo.Update (User.mk user.ID username email)
                  (s.userRepo.FindByID id st).2).1.1,
                (s.userRepo.Update (User.mk user.ID username email)
                  (s.userRepo.FindByID id st).2).1.2)) := by
  refine ⟨fun _ _ => rfl, fun _ => rfl, ?_, ?_⟩
  · intro id username email E h
    rw [UpdateUser_of_find_error s id username email st E h]
    rfl
  · intro id username email user h
    rw [UpdateUser_of_found s id username email st user h]
    rfl

theorem orchestrator_results_witness :
    ((memStore.FindByID 7 [User.mk 1 "user1".toList "duplicate@example.com".toList]).1.2
        = some "record not found" ∧
      ((UserService.mk memStore).UpdateUser 7 "new".toList "new@example.com".toList
          [User.mk 1 "user1".toList "duplicate@example.com".toList]).map Prod.fst
        = some (none, some "record not found")) ∧
    ((memStore.FindByID 1 [User.mk 1 "user1".toList "duplicate@example.com".toList]).1
        = (some (User.mk 1 "user1".toList "duplicate@example.com".toList), none) ∧
      ((UserService.mk memStore).UpdateUser 1 "new".toList "new@example.com".toList
          [User.mk 1 "user1".toList "duplicate@example.com".toList]).map Prod.fst
        = some (some (memStore.Update (User.mk 1 "new".toList "new@example.com".toList)
              (memStore.FindByID 1
                [User.mk 1 "user1".toList "duplicate@example.com".toList]).2).1.1,
            (memStore.Update (User.mk 1 "new".toList "new@example.com".toList)
              (memStore.FindByID 1
                [User.mk 1 "user1".toList "duplicate@example.com".toList]).2).1.2)) :=
  ⟨⟨by decide,
      (orchestrator_results (UserService.mk memStore)
        [User.mk 1 "user1".toList "duplicate@example.com".toList]).2.2.1
        7 "new".toList "new@example.com".toList "record not found" (by decide)⟩,
    ⟨by decide,
      (orchestrator_results (UserService.mk memStore)
        [User.mk 1 "user1".toList "duplicate@example.com".toList]).2.2.2
        1 "new".toList "new@example.com".toList
        (User.mk 1 "user1".toList "duplicate@example.com".toList) (by decide)⟩⟩

/-- C17: when `FindByID` returns a user without error and `Update` fails with
the error `E`, leaving the two fields of the entity as it received them,
`UpdateUser` returns `E` together with the in-memory user whose `Username` and
`Email` are the new values. -/
theorem UpdateUser_returns_entity_with_store_error {σ : Type} (s : UserService σ) (id : Nat)
    (username email : GoString) (st st1 st2 : σ) (user left : User) (E : String)
    (hfind : s.userRepo.FindByID id st = ((some user, none), st1))
    (hupdate : s.userRepo.Update { user with Username := username, Email := email } st1
      = ((left, some E), st2))
    (hname : left.Username = username) (hmail : left.Email = email) :
    s.UpdateUser id username email st
      = some ((some (User.mk left.ID username email), some E), st2) := by
  have hleft : left = User.mk left.ID username email := by
    cases left
    simp only at hname hmail
    subst hname hmail
    rfl
  rw [UpdateUser_of_found s id username email st user (by rw [hfind])]
  simp only [hfind, hupdate]
  rw [← hleft]

theorem UpdateUser_returns_entity_with_store_error_witness :
    (memStore.FindByID 2 [User.mk 1 "user1".toList "duplicate@example.com".toList,
          User.mk 2 "user2".toList "second@example.com".toList]
        = ((some (User.mk 2 "user2".toList "second@example.com".toList), none),
            [User.mk 1 "user1".toList "duplicate@example.com".toList,
              User.mk 2 "user2".toList "second@example.com".toList]) ∧
      memStore.Update { User.mk 2 "user2".toList "second@example.com".toList with
          Username := "user1".toList, Email := "other@example.com".toList }
          [User.mk 1 "user1".toList "duplicate@example.com".toList,
            User.mk 2 "user2".toList "second@example.com".toList]
        = ((User.mk 2 "user1".toList "other@example.com".toList,
            some "UNIQUE constraint failed"),
            [User.mk 1 "user1".toList "duplicate@example.com".toList,
              User.mk 2 "user2".toList "second@example.com".toList]) ∧
      (User.mk 2 "user1".toList "other@example.com".toList).Username = "user1".toList ∧
      (User.mk 2 "user1".toList "other@example.com".toList).Email
        = "other@example.com".toList) ∧
    (UserService.mk memStore).UpdateUser 2 "user1".toList "other@example.com".toList
        [User.mk 1 "user1".toList "duplicate@example.com".toList,
          User.mk 2 "user2".toList "second@example.com".toList]
      = some ((some (User.mk 2 "user1".toList "other@example.com".toList),
            some "UNIQUE constraint failed"),
          [User.mk 1 "user1".toList "duplicate@example.com".toList,
            User.mk 2 "user2".toList "second@example.com".toList]) :=
  ⟨by decide,
    UpdateUser_returns_entity_with_store_error (UserService.mk memStore) 2 "user1".toList
      "other@example.com".toList
      [User.mk 1 "user1".toList "duplicate@example.com".toList,
        User.mk 2 "user2".toList "second@example.com".toList]
      [User.mk 1 "user1".toList "duplicate@example.com".toList,
        User.mk 2 "user2".toList "second@example.com".toList]
      [User.mk 1 "user1".toList "duplicate@example.com".toList,
        User.mk 2 "user2".toList "second@example.com".toList]
      (User.mk 2 "user2".toList "second@example.com".toList)
      (User.mk 2 "user1".toList "other@example.com".toList) "UNIQUE constraint failed"
      (by decide) (by decide) rfl rfl⟩

/-- C18, as stated, fails: over a store whose `Update` inserts an entity
without identifier and writes the new identifier into it, `UpdateUser` of a
fetched user whose `ID` is 0 hands to `Update` an entity with `ID` 0 and
returns it with `ID` 1. -/
theorem UpdateUser_returns_ID_written_by_store :
    (saveStore.FindByID 0 [User.mk 0 "old".toList "old@example.com".toList]).1
        = (some (User.mk 0 "old".toList "old@example.com".toList), none) ∧
      (UserService.mk (traced saveStore)).UpdateUser 0 "new".toList "new@example.com".toList
          ([User.mk 0 "old".toList "old@example.com".toList], [])
        = some ((some (User.mk 1 "new".toList "new@example.com".toList), none),
            ([User.mk 0 "old".toList "old@example.com".toList,
                User.mk 1 "new".toList "new@example.com".toList],
              [Call.FindByID 0, Call.Update (User.mk 0 "new".toList "new@example.com".toList)]))
        ∧ (User.mk 1 "new".toList "new@example.com".toList).ID
          ≠ (User.mk 0 "old".toList "old@example.com".toList).ID := by
  decide

/-- C18, amended: `User.Update` leaves `ID` unchanged whether it succeeds or
fails; when `FindByID` returns a user without error, `UpdateUser` hands to
`Update` an entity with the `ID` of that user and returns the entity as
`Update` left it, so that the `ID` returned is that of the fetched user
whenever `Update` leaves the `ID` of the entity it is handed. -/
theorem update_keeps_ID :
    (∀ (u : User) (username email : GoString), (u.Update username email).1.ID = u.ID) ∧
      (∀ (σ : Type) (s : UserService σ) (id : Nat) (username email : GoString) (st : σ)
          (user : User), (s.userRepo.FindByID id st).1 = (some user, none) →
        ∃ (handed returned : User) (err : Option String) (st2 : σ),
          handed = User.mk user.ID username email ∧
          s.userRepo.Update handed (s.userRepo.FindByID id st).2 = ((returned, err), st2) ∧
          s.UpdateUser id username email st = some ((some returned, err), st2) ∧
          (UserService.mk (traced s.userRepo)).UpdateUser id username email (st, [])
            = some ((some returned, err), (st2, [Call.FindByID id, Call.Update handed])) ∧
          (returned.ID = handed.ID → returned.ID = user.ID)) := by
  constructor
  · intro u username email
    unfold User.Update
    cases hv : User.Validate
        { u with Username := TrimSpace username, Email := TrimSpace email } with
    | none => simp [hv]
    | some err => simp [hv]
  · intro σ s id username email st user h
    refine ⟨User.mk user.ID username email,
      (s.userRepo.Update (User.mk user.ID username email) (s.userRepo.FindByID id st).2).1.1,
      (s.userRepo.Update (User.mk user.ID username email) (s.userRepo.FindByID id st).2).1.2,
      (s.userRepo.Update (User.mk user.ID username email) (s.userRepo.FindByID id st).2).2,
      rfl, rfl, UpdateUser_of_found s id username email st user h, ?_, fun hid => hid⟩
    rw [UpdateUser_of_found (UserService.mk (traced s.userRepo)) id username email (st, []) user
      (by simpa only [traced] using h)]
    simp only [traced, List.nil_append, List.singleton_append]

theorem update_keeps_ID_witness :
    (memStore.FindByID 1 [User.mk 1 "testuser".toList "test@example.com".toList]).1
        = (some (User.mk 1 "testuser".toList "test@example.com".toList), none) ∧
    ∃ (handed returned : User) (err : Option String) (st2 : List User),
      handed = User.mk (User.mk 1 "testuser".toList "test@example.com".toList).ID
        "updateduser".toList "updated@example.com".toList ∧
      memStore.Update handed
          (memStore.FindByID 1 [User.mk 1 "testuser".toList "test@example.com".toList]).2
        = ((returned, err), st2) ∧
      (UserService.mk memStore).UpdateUser 1 "updateduser".toList "updated@example.com".toList
          [User.mk 1 "testuser".toList "test@example.com".toList]
        = some ((some returned, err), st2) ∧
      (UserService.mk (traced memStore)).UpdateUser 1 "updateduser".toList
          "updated@example.com".toList
          ([User.mk 1 "testuser".toList "test@example.com".toList], [])
        = some ((some returned, err), (st2, [Call.FindByID 1, Call.Update handed])) ∧
      (returned.ID = handed.ID →
        returned.ID = (User.mk 1 "testuser".toList "test@example.com".toList).ID) :=
  ⟨by decide,
    update_keeps_ID.2 (List User) (UserService.mk memStore) 1 "updateduser".toList
      "updated@example.com".toList [User.mk 1 "testuser".toList "test@example.com".toList]
      (User.mk 1 "testuser".toList "test@example.com".toList) (by decide)⟩

end service

namespace service
open entity strings repository

/-- C19: over a store that satisfies the contract of `Create` and `FindByID`,
a `RegisterUser` that succeeds returns a user with a non-zero `ID`, and
`GetUser` of that `ID`, run next, returns without error a user with the same
`ID`, the username and the email given to `RegisterUser`. -/
theorem register_then_get {σ : Type} (s : UserService σ) (username email : GoString) (st : σ)
    (hstore : CreateContract s.userRepo st)
    (hok : (s.RegisterUser username email st).1.2 = none) :
    ∃ registered : User,
      (s.RegisterUser username email st).1 = (some registered, none) ∧
      registered.ID ≠ 0 ∧
      ∃ fetched : User,
        (s.GetUser registered.ID (s.RegisterUser username email st).2).1
          = (some fetched, none) ∧
        fetched.ID = registered.ID ∧ fetched.Username = username ∧ fetched.Email = email := by
  rw [RegisterUser_eq] at hok ⊢
  simp only at hok ⊢
  have hcreate : s.userRepo.Create (User.mk 0 username email) st
      = (((s.userRepo.Create (User.mk 0 username email) st).1.1, none),
          (s.userRepo.Create (User.mk 0 username email) st).2) := by
    rw [← hok]
  obtain ⟨hid, hname, hmail, hfind⟩ := hstore _ _ _ hcreate
  refine ⟨_, by rw [hok], hid, _, hfind, rfl, hname, hmail⟩

theorem register_then_get_witness :
    (CreateContract memStore [] ∧
      ((UserService.mk memStore).RegisterUser "john_doe".toList "john@example.com".toList
        []).1.2 = none) ∧
    ∃ registered : User,
      ((UserService.mk memStore).RegisterUser "john_doe".toList "john@example.com".toList
        []).1 = (some registered, none) ∧
      registered.ID ≠ 0 ∧
      ∃ fetched : User,
        ((UserService.mk memStore).GetUser registered.ID
          ((UserService.mk memStore).RegisterUser "john_doe".toList "john@example.com".toList
            []).2).1 = (some fetched, none) ∧
        fetched.ID = registered.ID ∧ fetched.Username = "john_doe".toList ∧
          fetched.Email = "john@example.com".toList :=
  ⟨⟨memStore_CreateContract [], by decide⟩,
    register_then_get (UserService.mk memStore) "john_doe".toList "john@example.com".toList []
      (memStore_CreateContract []) (by decide)⟩

/-- C20: `RegisterUser` returns exactly the error reported by `Create`; hence,
over a store that enforces uniqueness, after a `RegisterUser` that succeeded a
`RegisterUser` with the same email, or with the same username, returns an
error. -/
theorem RegisterUser_propagates_conflict {σ : Type} (s : UserService σ) (st : σ) :
    (∀ username email : GoString,
        (s.RegisterUser username email st).1.2
          = (s.userRepo.Create (User.mk 0 username email) st).1.2) ∧
      (EnforcesUniqueness s.userRepo st →
        (∀ u1 u2 e : GoString, (s.RegisterUser u1 e st).1.2 = none →
          (s.RegisterUser u2 e (s.RegisterUser u1 e st).2).1.2 ≠ none) ∧
        (∀ u e1 e2 : GoString, (s.RegisterUser u e1 st).1.2 = none →
          (s.RegisterUser u e2 (s.RegisterUser u e1 st).2).1.2 ≠ none)) := by
  refine ⟨fun _ _ => rfl, fun huniq => ⟨?_, ?_⟩⟩
  · intro u1 u2 e hok
    rw [RegisterUser_eq] at hok
    simp only at hok
    have hcreate : s.userRepo.Create (User.mk 0 u1 e) st
        = (((s.userRepo.Create (User.mk 0 u1 e) st).1.1, none),
            (s.userRepo.Create (User.mk 0 u1 e) st).2) := by
      rw [← hok]
    exact huniq _ _ _ hcreate (User.mk 0 u2 e) (Or.inr rfl)
  · intro u e1 e2 hok
    rw [RegisterUser_eq] at hok
    simp only at hok
    have hcreate : s.userRepo.Create (User.mk 0 u e1) st
        = (((s.userRepo.Create (User.mk 0 u e1) st).1.1, none),
            (s.userRepo.Create (User.mk 0 u e1) st).2) := by
      rw [← hok]
    exact huniq _ _ _ hcreate (User.mk 0 u e2) (Or.inl rfl)

theorem RegisterUser_propagates_conflict_witness :
    (EnforcesUniqueness memStore [] ∧
      ((UserService.mk memStore).RegisterUser "user1".toList "duplicate@example.com".toList
        []).1.2 = none ∧
      ((UserService.mk memStore).RegisterUser "duplicateuser".toList
        "email1@example.com".toList []).1.2 = none) ∧
    ((UserService.mk memStore).RegisterUser "user2".toList "duplicate@example.com".toList
        ((UserService.mk memStore).RegisterUser "user1".toList "duplicate@example.com".toList
          []).2).1.2 ≠ none ∧
    ((UserService.mk memStore).RegisterUser "duplicateuser".toList "email2@example.com".toList
        ((UserService.mk memStore).RegisterUser "duplicateuser".toList
          "email1@example.com".toList []).2).1.2 ≠ none :=
  ⟨⟨memStore_EnforcesUniqueness [], by decide, by decide⟩,
    ((RegisterUser_propagates_conflict (UserService.mk memStore) []).2
      (memStore_EnforcesUniqueness [])).1 "user1".toList "user2".toList
      "duplicate@example.com".toList (by decide),
    ((RegisterUser_propagates_conflict (UserService.mk memStore) []).2
      (memStore_EnforcesUniqueness [])).2 "duplicateuser".toList "email1@example.com".toList
      "email2@example.com".toList (by decide)⟩

end service

namespace entity
open strings regexp regexp.Regexp

theorem Update_of_invalid (u : User) (un em : GoString) (err : String)
    (h : (User.mk u.ID (TrimSpace un) (TrimSpace em)).Validate = some err) :
    u.Update un em = (u, some err) := by
  unfold User.Update
  simp only [h]

theorem Update_of_valid (u : User) (un em : GoString)
    (h : (User.mk u.ID (TrimSpace un) (TrimSpace em)).Validate = none) :
    u.Update un em = (User.mk u.ID (TrimSpace un) (TrimSpace em), none) := by
  unfold User.Update
  simp only [h]

theorem NewUser_of_invalid (un em : GoString) (err : String)
    (h : (User.mk 0 (TrimSpace un) (TrimSpace em)).Validate = some err) :
    NewUser un em = (none, some err) := by
  unfold NewUser
  simp only [h]

theorem NewUser_of_valid (un em : GoString)
    (h : (User.mk 0 (TrimSpace un) (TrimSpace em)).Validate = none) :
    NewUser un em = (some (User.mk 0 (TrimSpace un) (TrimSpace em)), none) := by
  unfold NewUser
  simp only [h]

/-- C25: `User.Update` preserves validity: a user on which `Validate` succeeds
still passes `Validate` after `Update`, whether `Update` succeeded or failed;
and after a successful `Update` the user passes `Validate` whatever it was
before. -/
theorem Update_preserves_validity (u : User) (username email : GoString) :
    (u.Validate = none → (u.Update username email).1.Validate = none) ∧
      ((u.Update username email).2 = none → (u.Update username email).1.Validate = none) := by
  cases hv : (User.mk u.ID (TrimSpace username) (TrimSpace email)).Validate with
  | none =>
    rw [Update_of_valid u username email hv]
    exact ⟨fun _ => hv, fun _ => hv⟩
  | some err =>
    rw [Update_of_invalid u username email err hv]
    refine ⟨fun h => h, fun h => ?_⟩
    simp at h

theorem Update_preserves_validity_witness :
    ((User.mk 1 "old_username".toList "old@example.com".toList).Validate = none ∧
      ((User.mk 1 "old_username".toList "old@example.com".toList).Update
        "ne".toList "new@example.com".toList).2 ≠ none ∧
      ((User.mk 1 "old_username".toList "old@example.com".toList).Update
        "ne".toList "new@example.com".toList).1.Validate = none) ∧
    ((User.mk 1 "x".toList "no email".toList).Validate ≠ none ∧
      ((User.mk 1 "x".toList "no email".toList).Update
        " new_username ".toList "new@example.com".toList).2 = none ∧
      ((User.mk 1 "x".toList "no email".toList).Update
        " new_username ".toList "new@example.com".toList).1.Validate = none) :=
  ⟨⟨by decide, by decide,
      (Update_preserves_validity (User.mk 1 "old_username".toList "old@example.com".toList)
        "ne".toList "new@example.com".toList).1 (by decide)⟩,
    ⟨by decide, by decide,
      (Update_preserves_validity (User.mk 1 "x".toList "no email".toList)
        " new_username ".toList "new@example.com".toList).2 (by decide)⟩⟩

/-- C26: `User.Update` and `NewUser` apply the same acceptance rule: `Update`
returns nil exactly when `NewUser` returns a user, the two return the same
error, and on success the updated user has the `Username` and the `Email` of
the user that `NewUser` returns. -/
theorem Update_NewUser_same_rule (u : User) (username email : GoString) :
    ((u.Update username email).2 = none ↔ ∃ v, (NewUser username email).1 = some v) ∧
      (u.Update username email).2 = (NewUser username email).2 ∧
      (∀ v : User, (NewUser username email).1 = some v →
        (u.Update username email).2 = none ∧
        (u.Update username email).1.Username = v.Username ∧
        (u.Update username email).1.Email = v.Email) := by
  cases hv : (User.mk 0 (TrimSpace username) (TrimSpace email)).Validate with
  | none =>
    have hv1 : (User.mk u.ID (TrimSpace username) (TrimSpace email)).Validate = none := by
      rw [← hv]
      exact Validate_ID_irrelevant _ _ _ _
    rw [Update_of_valid u username email hv1, NewUser_of_valid username email hv]
    refine ⟨⟨fun _ => ⟨_, rfl⟩, fun _ => rfl⟩, rfl, ?_⟩
    intro v h
    simp only [Option.some.injEq] at h
    subst h
    exact ⟨rfl, rfl, rfl⟩
  | some err =>
    have hv1 : (User.mk u.ID (TrimSpace username) (TrimSpace email)).Validate = some err := by
      rw [← hv]
      exact Validate_ID_irrelevant _ _ _ _
    rw [Update_of_invalid u username email err hv1, NewUser_of_invalid username email err hv]
    refine ⟨⟨fun h => ?_, fun h => ?_⟩, rfl, ?_⟩
    · simp at h
    · obtain ⟨v, hv⟩ := h
      simp at hv
    · intro v h
      simp at h

theorem Update_NewUser_same_rule_witness :
    (NewUser "  john_doe  ".toList "john@example.com".toList).1
        = some (User.mk 0 "john_doe".toList "john@example.com".toList) ∧
    ((User.mk 5 "old".toList "old@example.com".toList).Update
        "  john_doe  ".toList "john@example.com".toList).2 = none ∧
    ((User.mk 5 "old".toList "old@example.com".toList).Update
        "  john_doe  ".toList "john@example.com".toList).1.Username
      = (User.mk 0 "john_doe".toList "john@example.com".toList).Username ∧
    ((User.mk 5 "old".toList "old@example.com".toList).Update
        "  john_doe  ".toList "john@example.com".toList).1.Email
      = (User.mk 0 "john_doe".toList "john@example.com".toList).Email :=
  ⟨by decide,
    (Update_NewUser_same_rule (User.mk 5 "old".toList "old@example.com".toList)
      "  john_doe  ".toList "john@example.com".toList).2.2
      (User.mk 0 "john_doe".toList "john@example.com".toList) (by decide)⟩

/-- C27: `Validate` returns nil exactly when the byte length of `Username` is
between 3 and 50 and `IsValidEmail` is true; an empty email is rejected by the
pattern as well, so the empty-email check only selects the message. -/
theorem Validate_nil_iff (u : User) :
    (u.Validate = none ↔ (3 ≤ len u.Username ∧ len u.Username ≤ 50) ∧ u.IsValidEmail = true) ∧
      (u.Email = [] → u.IsValidEmail = false) ∧
      (u.Validate = some "email cannot be empty" → u.IsValidEmail = false) := by
  have hempty : u.Email = [] → u.IsValidEmail = false := by
    intro h
    unfold User.IsValidEmail
    rw [h]
    exact emailRegex_not_match_nil
  refine ⟨?_, hempty, ?_⟩
  · unfold User.Validate User.IsValidEmail
    by_cases h1 : u.Username = []
    · simp [h1, len_nil]
    · by_cases h2 : len u.Username < 3
      · have : ¬ 3 ≤ len u.Username := by omega
        simp [h1, h2, this]
      · by_cases h3 : len u.Username > 50
        · have : ¬ len u.Username ≤ 50 := by omega
          simp [h1, h2, h3, this]
        · have h5 : 3 ≤ len u.Username := by omega
          have h6 : len u.Username ≤ 50 := by omega
          by_cases h4 : u.Email = []
          · simp [h1, h2, h3, h4, emailRegex_not_match_nil]
          · by_cases h7 : emailRegex.MatchString u.Email = true
            · simp [h1, h2, h3, h4, h5, h6, h7]
            · simp [h1, h2, h3, h4, h5, h6, h7]
  · intro h
    apply hempty
    unfold User.Validate at h
    by_cases h1 : u.Username = []
    · simp [h1] at h
    · by_cases h2 : len u.Username < 3
      · simp [h1, h2] at h
      · by_cases h3 : len u.Username > 50
        · simp [h1, h2, h3] at h
        · by_cases h4 : u.Email = []
          · exact h4
          · by_cases h7 : emailRegex.MatchString u.Email = true
            · simp [h1, h2, h3, h4, h7] at h
            · simp [h1, h2, h3, h4, h7] at h

theorem Validate_nil_iff_witness :
    ((User.mk 0 "john_doe".toList []).Email = [] ∧
      (User.mk 0 "john_doe".toList []).IsValidEmail = false) ∧
    ((User.mk 0 "john_doe".toList []).Validate = some "email cannot be empty" ∧
      (User.mk 0 "john_doe".toList []).IsValidEmail = false) :=
  ⟨⟨rfl, (Validate_nil_iff (User.mk 0 "john_doe".toList [])).2.1 rfl⟩,
    ⟨by decide, (Validate_nil_iff (User.mk 0 "john_doe".toList [])).2.2 (by decide)⟩⟩

end entity

namespace entity
open strings regexp regexp.Regexp

theorem IsValidEmail_of_Validate (u : User) (h : u.Validate = none) :
    u.IsValidEmail = true := by
  unfold User.Validate at h
  unfold User.IsValidEmail
  by_cases h1 : u.Username = []
  · simp [h1] at h
  · by_cases h2 : len u.Username < 3
    · simp [h1, h2] at h
    · by_cases h3 : len u.Username > 50
      · simp [h1, h2, h3] at h
      · by_cases h4 : u.Email = []
        · simp [h1, h2, h3, h4] at h
        · by_cases h7 : emailRegex.MatchString u.Email = true
          · exact h7
          · simp [h1, h2, h3, h4, h7] at h

theorem takeWhile_before_sep (a : Char) (name rest : GoString) (h : a ∉ name) :
    (name ++ a :: rest).takeWhile (fun c => c != a) = name := by
  induction name with
  | nil => simp
  | cons c name ih =>
    have hc : c ≠ a := fun hca => h (hca ▸ List.mem_cons_self _ _)
    have hn : a ∉ name := fun hm => h (List.mem_cons_of_mem _ hm)
    simp [List.takeWhile_cons, hc, ih hn]

theorem takeWhile_no_sep (a : Char) (name : GoString) (h : a ∉ name) :
    name.takeWhile (fun c => c != a) = name := by
  induction name with
  | nil => simp
  | cons c name ih =>
    have hc : c ≠ a := fun hca => h (hca ▸ List.mem_cons_self _ _)
    have hn : a ∉ name := fun hm => h (List.mem_cons_of_mem _ hm)
    simp [List.takeWhile_cons, hc, ih hn]

theorem EmailShape_facts (e : GoString) (h : EmailShape e) :
    e.count '@' = 1 ∧ 6 ≤ e.length ∧
      ∃ L rest : GoString, e = L ++ '@' :: rest ∧ '@' ∉ L ∧ L ≠ [] ∧
        (∀ c ∈ L, c ∈ localAlphabet) ∧ e.takeWhile (fun c => c != '@') = L := by
  obtain ⟨L, D, T, rfl, ⟨hL, hLc⟩, ⟨hD, hDc⟩, ⟨hT, hTc⟩⟩ := h
  have hL0 : '@' ∉ L := by
    intro hm
    have := hLc _ hm
    revert this
    decide
  have hD0 : '@' ∉ D := by
    intro hm
    have := hDc _ hm
    revert this
    decide
  have hT0 : '@' ∉ T := by
    intro hm
    have := hTc _ hm
    revert this
    decide
  refine ⟨?_, ?_, L, D ++ '.' :: T, rfl, hL0, hL, hLc, takeWhile_before_sep '@' L _ hL0⟩
  · simp [List.count_append, List.count_cons, List.count_eq_zero.mpr hL0,
      List.count_eq_zero.mpr hD0, List.count_eq_zero.mpr hT0]
  · have h1 : 1 ≤ L.length := List.length_pos.mpr hL
    have h2 : 1 ≤ D.length := List.length_pos.mpr hD
    simp only [List.length_append, List.length_cons]
    omega

/-- C28: an email accepted by validation contains exactly one `@`, contains no
white space and has at least 6 characters; the text before its first `@` is
the local part, which is not empty. -/
theorem valid_email_one_at (i : Nat) (n e : GoString)
    (h : (User.mk i n e).IsValidEmail = true ∨ (User.mk i n e).Validate = none) :
    e.count '@' = 1 ∧ (∀ c ∈ e, isSpace c = false) ∧ 6 ≤ e.length ∧
      ∃ L rest : GoString, e = L ++ '@' :: rest ∧ '@' ∉ L ∧ L ≠ [] ∧
        (∀ c ∈ L, c ∈ localAlphabet) ∧ e.takeWhile (fun c => c != '@') = L := by
  have hvalid : (User.mk i n e).IsValidEmail = true := by
    rcases h with h | h
    · exact h
    · exact IsValidEmail_of_Validate _ h
  have hshape : EmailShape e := (emailRegex_match_iff e).mp hvalid
  obtain ⟨h1, h2, h3⟩ := EmailShape_facts e hshape
  exact ⟨h1, EmailShape_no_space e hshape, h2, h3⟩

theorem valid_email_one_at_witness :
    ((User.mk 0 [] "a@b.co".toList).IsValidEmail = true ∨
      (User.mk 0 [] "a@b.co".toList).Validate = none) ∧
    ("a@b.co".toList.count '@' = 1 ∧ (∀ c ∈ "a@b.co".toList, isSpace c = false) ∧
      6 ≤ "a@b.co".toList.length ∧
      ∃ L rest : GoString, "a@b.co".toList = L ++ '@' :: rest ∧ '@' ∉ L ∧ L ≠ [] ∧
        (∀ c ∈ L, c ∈ localAlphabet) ∧
        "a@b.co".toList.takeWhile (fun c => c != '@') = L) :=
  ⟨Or.inl (by decide), valid_email_one_at 0 [] "a@b.co".toList (Or.inl (by decide))⟩

/-- C29: with an empty `Username` and a non-empty `Email`, `GetDisplayName`
does not reach the fallback: `strings.Split` returns at least one piece, and
the result is the whole `Email` when it holds no `@`, the text before the first
`@` otherwise, hence the empty string when `Email` begins with `@`. -/
theorem GetDisplayName_no_fallback (u : User) (hu : u.Username = []) (he : u.Email ≠ []) :
    Split u.Email "@".toList ≠ [] ∧
      u.GetDisplayName = u.Email.takeWhile (fun c => c != '@') ∧
      ('@' ∉ u.Email → u.GetDisplayName = u.Email) ∧
      (∀ name rest : GoString, u.Email = name ++ '@' :: rest → '@' ∉ name →
        u.GetDisplayName = name) ∧
      (u.Email.head? = some '@' → u.GetDisplayName = []) := by
  have hsplit : ∃ tl, Split u.Email ['@']
      = u.Email.takeWhile (fun c => c != '@') :: tl := by
    by_cases hat : '@' ∈ u.Email
    · obtain ⟨name, rest, hname, heq⟩ : ∃ name rest, '@' ∉ name ∧ u.Email = name ++ '@' :: rest := by
        obtain ⟨name, rest, heq, hname⟩ := List.eq_append_cons_of_mem hat
        exact ⟨name, rest, hname, heq⟩
      refine ⟨Split.go ['@'] rest 0 [], ?_⟩
      rw [heq, takeWhile_before_sep '@' name rest hname]
      have := Split_go_single '@' name rest [] hname
      simpa [Split] using this
    · refine ⟨[], ?_⟩
      rw [takeWhile_no_sep '@' u.Email hat]
      have := Split_go_single_no_sep '@' u.Email [] hat
      simpa [Split] using this
  obtain ⟨tl, hsplit⟩ := hsplit
  have hname : u.GetDisplayName = u.Email.takeWhile (fun c => c != '@') := by
    simp [User.GetDisplayName, hu, he, hsplit]
  refine ⟨?_, hname, ?_, ?_, ?_⟩
  · show Split u.Email ['@'] ≠ []
    rw [hsplit]
    simp
  · intro hat
    rw [hname, takeWhile_no_sep '@' u.Email hat]
  · intro name rest heq hn
    rw [hname, heq, takeWhile_before_sep '@' name rest hn]
  · intro hhead
    rw [hname]
    cases hE : u.Email with
    | nil => exact absurd hE he
    | cons c rest =>
      rw [hE] at hhead
      simp only [List.head?_cons, Option.some.injEq] at hhead
      subst hhead
      simp

theorem GetDisplayName_no_fallback_witness :
    ((User.mk 0 [] "@example.com".toList).Username = [] ∧
      (User.mk 0 [] "@example.com".toList).Email ≠ [] ∧
      (User.mk 0 [] "@example.com".toList).Email.head? = some '@') ∧
    (User.mk 0 [] "@example.com".toList).GetDisplayName = [] ∧
    (User.mk 0 [] "no-at-sign".toList).GetDisplayName = "no-at-sign".toList :=
  ⟨by decide,
    (GetDisplayName_no_fallback (User.mk 0 [] "@example.com".toList) rfl (by decide)).2.2.2.2
      (by decide),
    (GetDisplayName_no_fallback (User.mk 0 [] "no-at-sign".toList) rfl (by decide)).2.2.1
      (by decide)⟩

end entity

namespace service
open entity strings repository

/-- C21: over a store in which, at the states considered, `FindByID(id)`
returns a user whose `Username` is `u` and `Email` is `e` and `Update` of that
user succeeds and leaves it as it is, `UpdateUser(id, u, e)` returns no error
and that user, with the same `ID`, `Username` and `Email`, and the call
repeated returns the same result. -/
theorem UpdateUser_identical_idempotent {σ : Type} (s : UserService σ) (id : Nat)
    (u e : GoString) (user : User) (P : σ → Prop) (st : σ)
    (hu : user.Username = u) (he : user.Email = e)
    (hstore : ∀ st0 : σ, P st0 → ∃ st1 st2 : σ,
      s.userRepo.FindByID id st0 = ((some user, none), st1) ∧
      s.userRepo.Update user st1 = ((user, none), st2) ∧ P st2)
    (hst : P st) :
    ∃ st2 : σ, s.UpdateUser id u e st = some ((some user, none), st2) ∧
      ∃ st4 : σ, s.UpdateUser id u e st2 = some ((some user, none), st4) := by
  have hsame : ({ user with Username := u, Email := e } : User) = user := by
    cases user
    simp only at hu he
    subst hu he
    rfl
  have hcall : ∀ st0 : σ, P st0 →
      ∃ st2 : σ, s.UpdateUser id u e st0 = some ((some user, none), st2) ∧ P st2 := by
    intro st0 h0
    obtain ⟨st1, st2, hfind, hupd, h2⟩ := hstore st0 h0
    refine ⟨st2, ?_, h2⟩
    rw [UpdateUser_of_found s id u e st0 user (by rw [hfind])]
    simp only [hsame, hfind, hupd]
  obtain ⟨st2, h1, hP2⟩ := hcall st hst
  obtain ⟨st4, h2, -⟩ := hcall st2 hP2
  exact ⟨st2, h1, st4, h2⟩

theorem UpdateUser_identical_idempotent_witness :
    ((User.mk 1 "new".toList "new@example.com".toList).Username = "new".toList ∧
      (User.mk 1 "new".toList "new@example.com".toList).Email = "new@example.com".toList ∧
      (∀ st0 : List User, st0 = [User.mk 1 "new".toList "new@example.com".toList] →
        ∃ st1 st2 : List User,
          memStore.FindByID 1 st0
            = ((some (User.mk 1 "new".toList "new@example.com".toList), none), st1) ∧
          memStore.Update (User.mk 1 "new".toList "new@example.com".toList) st1
            = ((User.mk 1 "new".toList "new@example.com".toList, none), st2) ∧
          st2 = [User.mk 1 "new".toList "new@example.com".toList])) ∧
    ∃ st2 : List User,
      (UserService.mk memStore).UpdateUser 1 "new".toList "new@example.com".toList
          [User.mk 1 "new".toList "new@example.com".toList]
        = some ((some (User.mk 1 "new".toList "new@example.com".toList), none), st2) ∧
      ∃ st4 : List User,
        (UserService.mk memStore).UpdateUser 1 "new".toList "new@example.com".toList st2
          = some ((some (User.mk 1 "new".toList "new@example.com".toList), none), st4) :=
  ⟨⟨rfl, rfl, fun st0 h0 => ⟨[User.mk 1 "new".toList "new@example.com".toList],
      [User.mk 1 "new".toList "new@example.com".toList], by subst h0; decide,
      by decide, rfl⟩⟩,
    UpdateUser_identical_idempotent (UserService.mk memStore) 1 "new".toList
      "new@example.com".toList (User.mk 1 "new".toList "new@example.com".toList)
      (fun st0 => st0 = [User.mk 1 "new".toList "new@example.com".toList])
      [User.mk 1 "new".toList "new@example.com".toList] rfl rfl
      (fun st0 h0 => ⟨[User.mk 1 "new".toList "new@example.com".toList],
        [User.mk 1 "new".toList "new@example.com".toList], by subst h0; decide,
        by decide, rfl⟩)
      rfl⟩

/-- C22: the orchestrator neither pre-checks nor retries: over every store and
from every state, `RegisterUser` makes the single call `Create`, `GetUser` the
single call `FindByID`, and `UpdateUser` one `FindByID` followed by no `Update`
when `FindByID` reports an error, by one `Update` when it returns a user, and
by a panic when it returns neither. -/
theorem orchestrator_store_calls {σ : Type} (s : UserService σ) (st : σ) :
    (∀ u e : GoString,
        ((UserService.mk (traced s.userRepo)).RegisterUser u e (st, [])).2.2
          = [Call.Create (User.mk 0 u e)]) ∧
      (∀ id : Nat,
        ((UserService.mk (traced s.userRepo)).GetUser id (st, [])).2.2 = [Call.FindByID id]) ∧
      (∀ (id : Nat) (u e : GoString),
        (∃ (E : String) (st1 : σ), (s.userRepo.FindByID id st).1.2 = some E ∧
          (UserService.mk (traced s.userRepo)).UpdateUser id u e (st, [])
            = some ((none, some E), (st1, [Call.FindByID id]))) ∨
        (∃ (user returned : User) (err : Option String) (st2 : σ),
          (s.userRepo.FindByID id st).1 = (some user, none) ∧
          s.userRepo.Update (User.mk user.ID u e) (s.userRepo.FindByID id st).2
            = ((returned, err), st2) ∧
          (UserService.mk (traced s.userRepo)).UpdateUser id u e (st, [])
            = some ((some returned, err),
                (st2, [Call.FindByID id, Call.Update (User.mk user.ID u e)]))) ∨
        ((s.userRepo.FindByID id st).1 = (none, none) ∧
          (UserService.mk (traced s.userRepo)).UpdateUser id u e (st, []) = none)) := by
  refine ⟨fun _ _ => rfl, fun _ => rfl, ?_⟩
  intro id u e
  cases herr : (s.userRepo.FindByID id st).1.2 with
  | some E =>
    left
    refine ⟨E, (s.userRepo.FindByID id st).2, rfl, ?_⟩
    rw [UpdateUser_of_find_error (UserService.mk (traced s.userRepo)) id u e (st, []) E
      (by simpa only [traced] using herr)]
    simp only [traced, List.nil_append]
  | none =>
    right
    cases huser : (s.userRepo.FindByID id st).1.1 with
    | some user =>
      left
      have hpair : (s.userRepo.FindByID id st).1 = (some user, none) := by
        rw [← huser, ← herr]
      refine ⟨user,
        (s.userRepo.Update (User.mk user.ID u e) (s.userRepo.FindByID id st).2).1.1,
        (s.userRepo.Update (User.mk user.ID u e) (s.userRepo.FindByID id st).2).1.2,
        (s.userRepo.Update (User.mk user.ID u e) (s.userRepo.FindByID id st).2).2, hpair,
        rfl, ?_⟩
      rw [UpdateUser_of_found (UserService.mk (traced s.userRepo)) id u e (st, []) user
        (by simpa only [traced] using hpair)]
      simp only [traced, List.nil_append, List.singleton_append]
    | none =>
      right
      have hpair : (s.userRepo.FindByID id st).1 = (none, none) := by
        rw [← huser, ← herr]
      refine ⟨hpair, ?_⟩
      unfold UserService.UpdateUser
      simp only [traced, herr, huser]

end service

namespace strconv
open entity

theorem digitVal_eq_some (c : Char) (d : Nat) :
    digitVal c = some d ↔ c ∈ asciiDigits ∧ d = c.toNat - '0'.toNat := by
  have hr := inRange_digit_iff c
  unfold asciiDigits
  rw [← hr]
  unfold digitVal inRange
  by_cases h : '0'.toNat ≤ c.toNat ∧ c.toNat ≤ '9'.toNat
  · simp only [h, and_self, if_true, Option.some.injEq, decide_True, Bool.and_self, true_and]
    exact eq_comm
  · simp only [h, if_false]
    constructor
    · intro hf
      simp at hf
    · rintro ⟨hc, -⟩
      simp only [Bool.and_eq_true, decide_eq_true_eq] at hc
      exact absurd hc h

theorem digitVal_eq_none (c : Char) : digitVal c = none ↔ c ∉ asciiDigits := by
  constructor
  · intro h hc
    have := (digitVal_eq_some c (c.toNat - '0'.toNat)).mpr ⟨hc, rfl⟩
    rw [h] at this
    simp at this
  · intro h
    cases hd : digitVal c with
    | none => rfl
    | some d => exact absurd ((digitVal_eq_some c d).mp hd).1 h

theorem parseDigits_eq_some (ds : GoString) (acc v : Nat) :
    parseDigits ds acc = some v ↔
      (∀ c ∈ ds, c ∈ asciiDigits) ∧
        v = ds.foldl (fun a c => a * 10 + (c.toNat - '0'.toNat)) acc := by
  induction ds generalizing acc with
  | nil => simp [parseDigits, eq_comm]
  | cons c ds ih =>
    cases hd : digitVal c with
    | none =>
      have hc := (digitVal_eq_none c).mp hd
      simp [parseDigits, hd, hc]
    | some d =>
      obtain ⟨hc, rfl⟩ := (digitVal_eq_some c d).mp hd
      simp [parseDigits, hd, hc, ih]

theorem digit_not_sign (c : Char) (h : c ∈ asciiDigits) : c ≠ '-' ∧ c ≠ '+' := by
  revert c
  decide

theorem strip_sign_comm (s : GoString) :
    (if s.head? = some '+' ∨ s.head? = some '-' then s.tail else s)
      = (if s.head? = some '-' ∨ s.head? = some '+' then s.tail else s) := by
  by_cases h1 : s.head? = some '-' <;> by_cases h2 : s.head? = some '+' <;> simp [h1, h2]

theorem SignedDecimal_iff (s : GoString) (n : Int) :
    SignedDecimal s n ↔
      (if s.head? = some '-' ∨ s.head? = some '+' then s.tail else s) ≠ [] ∧
      (∀ c ∈ (if s.head? = some '-' ∨ s.head? = some '+' then s.tail else s),
        c ∈ asciiDigits) ∧
      (if s.head? = some '-' then
        n = -(decimalValue
          (if s.head? = some '-' ∨ s.head? = some '+' then s.tail else s) : Int) ∧
          -(2 ^ 63 : Int) ≤ n
      else
        n = (decimalValue
          (if s.head? = some '-' ∨ s.head? = some '+' then s.tail else s) : Int) ∧
          n < 2 ^ 63) := by
  constructor
  · rintro ⟨digits, hne, hall, ⟨hs | hs, hn, hrange⟩ | ⟨hs, hn, hrange⟩⟩
    · subst hs
      cases s with
      | nil => exact absurd rfl hne
      | cons c rest =>
        obtain ⟨h1, h2⟩ := digit_not_sign c (hall c (List.mem_cons_self _ _))
        have h1' : ¬ (some c = some '-') := by simpa using h1
        have h2' : ¬ (some c = some '+') := by simpa using h2
        simp only [List.head?_cons, h1', h2', or_self, if_false]
        exact ⟨hne, hall, hn, hrange⟩
    · subst hs
      have hnm : ¬ (some '+' = some '-') := by decide
      simp only [List.head?_cons, hnm, or_true, if_true, if_false, List.tail_cons]
      exact ⟨hne, hall, hn, hrange⟩
    · subst hs
      simp only [List.head?_cons, true_or, if_true, List.tail_cons]
      exact ⟨hne, hall, hn, hrange⟩
  · rintro ⟨hne, hall, hval⟩
    refine ⟨_, hne, hall, ?_⟩
    cases s with
    | nil => simp at hne
    | cons c rest =>
      by_cases hm : c = '-'
      · subst hm
        right
        simp only [List.head?_cons, true_or, if_true, List.tail_cons] at hval ⊢
        exact ⟨trivial, hval.1, hval.2⟩
      · by_cases hpl : c = '+'
        · subst hpl
          left
          have hnm : ¬ (some '+' = some '-') := by decide
          simp only [List.head?_cons, hnm, or_true, if_true, if_false, List.tail_cons] at hval ⊢
          exact ⟨trivial, hval.1, hval.2⟩
        · left
          have h1 : ¬ (some c = some '-') := by simpa using hm
          have h2 : ¬ (some c = some '+') := by simpa using hpl
          simp only [List.head?_cons, h1, h2, or_self, if_false] at hval ⊢
          exact ⟨Or.inl trivial, hval.1, hval.2⟩

theorem foldl_digits_ge (ds : GoString) (acc : Nat) :
    acc ≤ ds.foldl (fun a c => a * 10 + (c.toNat - '0'.toNat)) acc := by
  induction ds generalizing acc with
  | nil => exact Nat.le_refl _
  | cons c ds ih =>
    simp only [List.foldl_cons]
    have := ih (acc * 10 + (c.toNat - '0'.toNat))
    omega

theorem digit_le_nine (c : Char) (h : c ∈ asciiDigits) : c.toNat - '0'.toNat ≤ 9 := by
  revert c
  decide

theorem digit_utf8Size (c : Char) (h : c ∈ asciiDigits) : c.utf8Size = 1 := by
  revert c
  decide

theorem foldl_digits_lt (ds : GoString) (acc : Nat) (hall : ∀ c ∈ ds, c ∈ asciiDigits) :
    ds.foldl (fun a c => a * 10 + (c.toNat - '0'.toNat)) acc < (acc + 1) * 10 ^ ds.length := by
  induction ds generalizing acc with
  | nil => simp
  | cons c ds ih =>
    simp only [List.foldl_cons, List.length_cons]
    have h9 := digit_le_nine c (hall c (List.mem_cons_self _ _))
    have := ih (acc * 10 + (c.toNat - '0'.toNat)) (fun x hx => hall x (List.mem_cons_of_mem _ hx))
    have hle : (acc * 10 + (c.toNat - '0'.toNat) + 1) * 10 ^ ds.length
        ≤ (acc + 1) * 10 ^ (ds.length + 1) := by
      rw [pow_succ, ← Nat.mul_assoc, Nat.mul_comm ((acc + 1) * 10 ^ ds.length) 10,
        ← Nat.mul_assoc]
      exact Nat.mul_le_mul_right _ (by omega)
    omega

theorem len_digits (ds : GoString) (hall : ∀ c ∈ ds, c ∈ asciiDigits) : len ds = ds.length := by
  induction ds with
  | nil => rfl
  | cons c ds ih =>
    have h1 := digit_utf8Size c (hall c (List.mem_cons_self _ _))
    have h2 := ih (fun x hx => hall x (List.mem_cons_of_mem _ hx))
    unfold len at h2 ⊢
    simp only [List.map_cons, List.sum_cons, List.length_cons, h1, h2]
    omega

theorem len_strip_le (s : GoString) :
    len (if s.head? = some '-' ∨ s.head? = some '+' then s.tail else s) ≤ len s := by
  split
  · cases s with
    | nil => exact Nat.le_refl _
    | cons c rest =>
      unfold len
      simp only [List.tail_cons, List.map_cons, List.sum_cons]
      omega
  · exact Nat.le_refl _

theorem decimalValue_short (s : GoString) (hshort : len s < 19)
    (hall : ∀ c ∈ (if s.head? = some '-' ∨ s.head? = some '+' then s.tail else s),
      c ∈ asciiDigits) :
    decimalValue (if s.head? = some '-' ∨ s.head? = some '+' then s.tail else s)
      < 10 ^ 18 := by
  have h1 := len_strip_le s
  have h2 := len_digits _ hall
  have h3 := foldl_digits_lt _ 0 hall
  have h4 : (if s.head? = some '-' ∨ s.head? = some '+' then s.tail else s).length ≤ 18 := by
    omega
  have h5 : 10 ^ (if s.head? = some '-' ∨ s.head? = some '+' then s.tail else s).length
      ≤ 10 ^ 18 := Nat.pow_le_pow_right (by norm_num) h4
  unfold decimalValue
  omega

theorem parseUintLoop_ok (ds : GoString) (n v : Nat) (hn : n ≤ 2 ^ 64 - 1) :
    parseUintLoop ds n = (v, none) ↔
      (∀ c ∈ ds, c ∈ asciiDigits) ∧
        v = ds.foldl (fun a c => a * 10 + (c.toNat - '0'.toNat)) n ∧ v ≤ 2 ^ 64 - 1 := by
  induction ds generalizing n with
  | nil =>
    simp only [parseUintLoop, Prod.mk.injEq, and_true, List.not_mem_nil, false_imp_iff,
      implies_true, List.foldl_nil, true_and]
    constructor
    · intro h
      exact ⟨h.symm, by omega⟩
    · intro h
      exact h.1.symm
  | cons c ds ih =>
    cases hd : digitVal c with
    | none =>
      have hc := (digitVal_eq_none c).mp hd
      simp [parseUintLoop, hd, hc]
    | some d =>
      obtain ⟨hc, rfl⟩ := (digitVal_eq_some c d).mp hd
      have hge := foldl_digits_ge ds (n * 10 + (c.toNat - '0'.toNat))
      simp only [parseUintLoop, hd, List.foldl_cons, List.mem_cons, forall_eq_or_imp, hc,
        true_and]
      by_cases h1 : n ≥ (2 ^ 64 - 1) / 10 + 1
      · simp only [h1, if_true, Prod.mk.injEq, reduceCtorEq, and_false, false_iff]
        rintro ⟨-, hv, hle⟩
        omega
      · simp only [h1, if_false]
        by_cases h2 : n * 10 + (c.toNat - '0'.toNat) > 2 ^ 64 - 1
        · simp only [h2, if_true, Prod.mk.injEq, reduceCtorEq, and_false, false_iff]
          rintro ⟨-, hv, hle⟩
          omega
        · simp only [h2, if_false]
          exact ih _ (by omega)

theorem parseUintLoop_error (ds : GoString) (n : Nat) :
    (parseUintLoop ds n).2 = none ∨ (parseUintLoop ds n).2 = some "invalid syntax" ∨
      (parseUintLoop ds n).1 = 2 ^ 64 - 1 := by
  induction ds generalizing n with
  | nil => exact Or.inl rfl
  | cons c ds ih =>
    cases hd : digitVal c with
    | none =>
      right
      left
      simp [parseUintLoop, hd]
    | some d =>
      simp only [parseUintLoop, hd]
      split
      · exact Or.inr (Or.inr rfl)
      · split
        · exact Or.inr (Or.inr rfl)
        · exact ih _

theorem ParseInt_of_digits (s : GoString) (hs : s ≠ [])
    (hne : (if s.head? = some '-' ∨ s.head? = some '+' then s.tail else s) ≠ [])
    (r : Nat × Option String)
    (hr : parseUintLoop (if s.head? = some '-' ∨ s.head? = some '+' then s.tail else s) 0 = r) :
    ParseInt s =
      if r.2 = some "invalid syntax" then (0, r.2)
      else if s.head? = some '-' then
        if r.1 > 2 ^ 63 then (-(2 ^ 63 : Int), some "value out of range")
        else (-(r.1 : Int), none)
      else
        if r.1 ≥ 2 ^ 63 then ((2 ^ 63 : Int) - 1, some "value out of range")
        else ((r.1 : Int), none) := by
  unfold ParseInt ParseUint
  simp only [hs, if_false, strip_sign_comm, hne, hr]
  by_cases h0 : r.2 = some "invalid syntax"
  · simp only [h0, if_true]
  · by_cases hneg : s.head? = some '-'
    · by_cases hgt : r.1 > 2 ^ 63
      · simp [h0, hneg, hgt]
      · simp [h0, hneg, hgt]
    · by_cases hge : r.1 ≥ 2 ^ 63
      · simp [h0, hneg, hge]
      · simp [h0, hneg, hge]

theorem ParseInt_eq_ok_iff (s : GoString) (n : Int) :
    ParseInt s = (n, none) ↔ SignedDecimal s n := by
  rw [SignedDecimal_iff]
  by_cases hs : s = []
  · subst hs
    simp [ParseInt]
  by_cases hne : (if s.head? = some '-' ∨ s.head? = some '+' then s.tail else s) = []
  · have : ParseInt s = (0, some "invalid syntax") := by
      unfold ParseInt ParseUint
      simp only [hs, if_false, strip_sign_comm, hne, if_true]
    rw [this]
    simp [hne]
  rw [ParseInt_of_digits s hs hne _ rfl]
  generalize (if s.head? = some '-' ∨ s.head? = some '+' then s.tail else s) = digits at hne ⊢
  by_cases hok : (∀ c ∈ digits, c ∈ asciiDigits) ∧ decimalValue digits ≤ 2 ^ 64 - 1
  · have hr : parseUintLoop digits 0 = (decimalValue digits, none) :=
      (parseUintLoop_ok digits 0 _ (by norm_num)).mpr ⟨hok.1, rfl, hok.2⟩
    rw [hr]
    have hns : ¬ ((none : Option String) = some "invalid syntax") := by decide
    simp only [hns, if_false, ne_eq, hne, not_false_eq_true, hok.1, implies_true, true_and]
    by_cases hneg : s.head? = some '-'
    · simp only [hneg, if_true]
      by_cases hgt : decimalValue digits > 2 ^ 63
      · simp only [hgt, if_true, Prod.mk.injEq, reduceCtorEq, and_false, false_iff]
        rintro ⟨-, rfl, hlo⟩
        omega
      · simp only [hgt, if_false, Prod.mk.injEq, and_true]
        constructor
        · intro h
          exact ⟨hok.1, h.symm, by omega⟩
        · intro h
          exact h.2.1.symm
    · simp only [hneg, if_false]
      by_cases hge : decimalValue digits ≥ 2 ^ 63
      · simp only [hge, if_true, Prod.mk.injEq, reduceCtorEq, and_false, false_iff]
        rintro ⟨-, rfl, hlo⟩
        omega
      · simp only [hge, if_false, Prod.mk.injEq, and_true]
        constructor
        · intro h
          exact ⟨hok.1, h.symm, by omega⟩
        · intro h
          exact h.2.1.symm
  · have hnone : (parseUintLoop digits 0).2 ≠ none := by
      intro h
      have hpair : parseUintLoop digits 0 = ((parseUintLoop digits 0).1, none) := by
        rw [← h]
      obtain ⟨h1, h2, h3⟩ := (parseUintLoop_ok digits 0 _ (by norm_num)).mp hpair
      exact hok ⟨h1, by unfold decimalValue; omega⟩
    constructor
    · intro h
      exfalso
      rcases parseUintLoop_error digits 0 with he | he | he
      · exact hnone he
      · simp [he] at h
      · by_cases h0 : (parseUintLoop digits 0).2 = some "invalid syntax"
        · simp [h0] at h
        · by_cases hneg : s.head? = some '-'
          · simp [h0, hneg, he] at h
          · simp [h0, hneg, he] at h
    · rintro ⟨-, hall, hval⟩
      exfalso
      apply hok
      refine ⟨hall, ?_⟩
      split at hval
      · omega
      · omega

theorem Atoi_fast_eq_ok_iff (s : GoString) (n : Int) (hshort : len s < 19) :
    (if (if s.head? = some '-' ∨ s.head? = some '+' then s.tail else s) = [] then
        ((0 : Int), some "invalid syntax")
      else
        match parseDigits (if s.head? = some '-' ∨ s.head? = some '+' then s.tail else s) 0 with
        | none => (0, some "invalid syntax")
        | some v => (if s.head? = some '-' then -(v : Int) else (v : Int), none)) = (n, none)
      ↔ SignedDecimal s n := by
  rw [SignedDecimal_iff]
  have hsmall := decimalValue_short s hshort
  generalize (if s.head? = some '-' ∨ s.head? = some '+' then s.tail else s) = digits
    at hsmall ⊢
  by_cases hne : digits = []
  · simp [hne]
  · simp only [hne, if_false, ne_eq, not_false_eq_true, true_and]
    cases hp : parseDigits digits 0 with
    | none =>
      simp only [Prod.mk.injEq, reduceCtorEq, and_false, false_iff]
      rintro ⟨hall, -⟩
      have := (parseDigits_eq_some digits 0 _).mpr ⟨hall, rfl⟩
      rw [hp] at this
      simp at this
    | some v =>
      obtain ⟨hall, hv⟩ := (parseDigits_eq_some digits 0 v).mp hp
      have hv' : v = decimalValue digits := hv
      have hlt := hsmall hall
      simp only [Prod.mk.injEq, and_true, hall, implies_true, true_and]
      rw [← hv'] at hlt ⊢
      by_cases hneg : s.head? = some '-'
      · simp only [hneg, if_true]
        constructor
        · intro h
          exact ⟨hall, h.symm, by omega⟩
        · intro h
          exact h.2.1.symm
      · simp only [hneg, if_false]
        constructor
        · intro h
          exact ⟨hall, h.symm, by omega⟩
        · intro h
          exact h.2.1.symm

theorem Atoi_eq_ok_iff (s : GoString) (n : Int) : Atoi s = (n, none) ↔ SignedDecimal s n := by
  by_cases hshort : 0 < len s ∧ len s < 19
  · have h := Atoi_fast_eq_ok_iff s n hshort.2
    unfold Atoi
    simp only [hshort, and_self, if_true]
    exact h
  · unfold Atoi
    simp only [hshort, if_false]
    exact ParseInt_eq_ok_iff s n

theorem Atoi_error_none_iff (s : GoString) :
    (Atoi s).2 = none ↔ ∃ n : Int, SignedDecimal s n := by
  constructor
  · intro h
    refine ⟨(Atoi s).1, (Atoi_eq_ok_iff s _).mp ?_⟩
    rw [← h]
  · rintro ⟨n, hn⟩
    rw [(Atoi_eq_ok_iff s n).mpr hn]

end strconv
theorem uint_eq_emod (n : Int) : (uint n : Int) = n % (2 ^ 64 : Int) := by
  unfold uint
  exact Int.toNat_of_nonneg (Int.emod_nonneg n (by norm_num))

theorem uint_of_neg (n : Int) (hneg : n < 0) (hlo : -(2 ^ 63 : Int) ≤ n) :
    (uint n : Int) = n + 2 ^ 64 := by
  rw [uint_eq_emod]
  omega

namespace controller
open entity strings repository service fiber

theorem GetUser_status {σ : Type} (c : UserController σ) (ctx : Ctx) (st : σ)
    (r : Response × σ) (h : c.GetUser ctx st = some r) :
    r.1.status = StatusNotFound ∨ r.1.status = StatusOK := by
  unfold UserController.GetUser at h
  cases hs : c.userService.GetUser (uint (strconv.Atoi (ctx.Params "id".toList)).1) st with
  | none => simp only [hs, reduceCtorEq] at h
  | some result =>
    cases herr : result.1.2 with
    | some err =>
      simp only [hs, herr, Option.some.injEq] at h
      rw [← h]
      exact Or.inl rfl
    | none =>
      simp only [hs, herr, Option.some.injEq] at h
      rw [← h]
      exact Or.inr rfl

/-- C23: evaluation of the handler `GetUser` on the identifier token "invalid",
over the service on an empty in-memory store: `strconv.Atoi` fails, the handler
discards its error, asks the service for the user 0 and responds 404 "User not
found", where the handler `UpdateUser` responds 400 "Invalid ID" without a call
to the service. -/
theorem GetUser_handler_malformed_id :
    (strconv.Atoi "invalid".toList).2 = some "invalid syntax" ∧
      (UserController.mk (tracedService (UserService.mk memStore).asInterface)).GetUser
          (request "invalid".toList (Except.error "no body")) ([], [])
        = some ({ status := StatusNotFound, body := Body.error "User not found" },
            ([], [ServiceCall.GetUser 0])) ∧
      (UserController.mk (tracedService (UserService.mk memStore).asInterface)).UpdateUser
          (request "invalid".toList
            (Except.ok { Username := "new".toList, Email := "new@example.com".toList }))
          ([], [])
        = some ({ status := StatusBadRequest, body := Body.error "Invalid ID" }, ([], [])) := by
  decide

end controller

namespace controller
open entity strings repository service fiber

theorem Register_of_body {σ : Type} (c : UserController σ) (ctx : Ctx) (st : σ) (input : Input)
    (hbody : ctx.BodyParser = Except.ok input)
    (result : (Option User × Option String) × σ)
    (hcall : c.userService.RegisterUser input.Username input.Email st = some result) :
    c.Register ctx st =
      match result.1.2 with
      | some err =>
        some ({ status := StatusInternalServerError, body := Body.error err }, result.2)
      | none => some ({ status := StatusCreated, body := Body.user result.1.1 }, result.2) := by
  unfold UserController.Register
  simp only [hbody, hcall]

theorem UpdateUser_of_invalid_id {σ : Type} (c : UserController σ) (ctx : Ctx) (st : σ)
    (err : String) (hid : (strconv.Atoi (ctx.Params "id".toList)).2 = some err) :
    c.UpdateUser ctx st
      = some ({ status := StatusBadRequest, body := Body.error "Invalid ID" }, st) := by
  unfold UserController.UpdateUser
  simp only [hid]

theorem UpdateUser_of_body {σ : Type} (c : UserController σ) (ctx : Ctx) (st : σ) (n : Int)
    (input : Input) (hid : strconv.Atoi (ctx.Params "id".toList) = (n, none))
    (hbody : ctx.BodyParser = Except.ok input) :
    c.UpdateUser ctx st =
      match c.userService.UpdateUser (uint n) input.Username input.Email st with
      | none => none
      | some result =>
        match result.1.2 with
        | some err =>
          some ({ status := StatusInternalServerError, body := Body.error err }, result.2)
        | none => some ({ status := StatusOK, body := Body.user result.1.1 }, result.2) := by
  unfold UserController.UpdateUser
  simp only [hid, hbody]

/-- C24: for a request whose body parses, `Register` responds 500 whenever the
service returns an error, whatever the error, and 201 when it returns none;
when moreover the identifier parses, `UpdateUser` responds 500 whenever the
service returns an error and 200 when it returns none. -/
theorem handlers_flatten_errors {σ : Type} (c : UserController σ) (ctx : Ctx) (st : σ)
    (input : Input) (hbody : ctx.BodyParser = Except.ok input) :
    (∀ (user : Option User) (err : String) (st1 : σ),
        c.userService.RegisterUser input.Username input.Email st = some ((user, some err), st1) →
        c.Register ctx st
          = some ({ status := StatusInternalServerError, body := Body.error err }, st1)) ∧
      (∀ (user : Option User) (st1 : σ),
        c.userService.RegisterUser input.Username input.Email st = some ((user, none), st1) →
        c.Register ctx st = some ({ status := StatusCreated, body := Body.user user }, st1)) ∧
      (∀ n : Int, strconv.Atoi (ctx.Params "id".toList) = (n, none) →
        (∀ (user : Option User) (err : String) (st1 : σ),
          c.userService.UpdateUser (uint n) input.Username input.Email st
            = some ((user, some err), st1) →
          c.UpdateUser ctx st
            = some ({ status := StatusInternalServerError, body := Body.error err }, st1)) ∧
        (∀ (user : Option User) (st1 : σ),
          c.userService.UpdateUser (uint n) input.Username input.Email st
            = some ((user, none), st1) →
          c.UpdateUser ctx st = some ({ status := StatusOK, body := Body.user user }, st1))) := by
  refine ⟨?_, ?_, ?_⟩
  · intro user err st1 h
    rw [Register_of_body c ctx st input hbody _ h]
  · intro user st1 h
    rw [Register_of_body c ctx st input hbody _ h]
  · intro n hid
    constructor
    · intro user err st1 h
      rw [UpdateUser_of_body c ctx st n input hid hbody, h]
    · intro user st1 h
      rw [UpdateUser_of_body c ctx st n input hid hbody, h]

theorem handlers_flatten_errors_witness :
    (request "99999".toList (Except.ok (Input.mk "user2".toList "duplicate@example.com".toList))
        ).BodyParser = Except.ok (Input.mk "user2".toList "duplicate@example.com".toList) ∧
    ((UserService.mk memStore).asInterface.RegisterUser "user2".toList
          "duplicate@example.com".toList
          [User.mk 1 "user1".toList "duplicate@example.com".toList]
        = some ((some (User.mk 0 "user2".toList "duplicate@example.com".toList),
            some "UNIQUE constraint failed"),
            [User.mk 1 "user1".toList "duplicate@example.com".toList]) ∧
      (UserController.mk (UserService.mk memStore).asInterface).Register
          (request "99999".toList
            (Except.ok (Input.mk "user2".toList "duplicate@example.com".toList)))
          [User.mk 1 "user1".toList "duplicate@example.com".toList]
        = some ({ status := StatusInternalServerError,
                  body := Body.error "UNIQUE constraint failed" },
            [User.mk 1 "user1".toList "duplicate@example.com".toList])) ∧
    (strconv.Atoi ((request "99999".toList
          (Except.ok (Input.mk "user2".toList "duplicate@example.com".toList))).Params
          "id".toList) = (99999, none) ∧
      (UserService.mk memStore).asInterface.UpdateUser (uint 99999) "user2".toList
          "duplicate@example.com".toList
          [User.mk 1 "user1".toList "duplicate@example.com".toList]
        = some ((none, some "record not found"),
            [User.mk 1 "user1".toList "duplicate@example.com".toList]) ∧
      (UserController.mk (UserService.mk memStore).asInterface).UpdateUser
          (request "99999".toList
            (Except.ok (Input.mk "user2".toList "duplicate@example.com".toList)))
          [User.mk 1 "user1".toList "duplicate@example.com".toList]
        = some ({ status := StatusInternalServerError, body := Body.error "record not found" },
            [User.mk 1 "user1".toList "duplicate@example.com".toList])) :=
  ⟨rfl,
    ⟨by decide,
      (handlers_flatten_errors (UserController.mk (UserService.mk memStore).asInterface)
        (request "99999".toList
          (Except.ok (Input.mk "user2".toList "duplicate@example.com".toList)))
        [User.mk 1 "user1".toList "duplicate@example.com".toList]
        (Input.mk "user2".toList "duplicate@example.com".toList) rfl).1
        (some (User.mk 0 "user2".toList "duplicate@example.com".toList))
        "UNIQUE constraint failed" [User.mk 1 "user1".toList "duplicate@example.com".toList]
        (by decide)⟩,
    ⟨by decide, by decide,
      ((handlers_flatten_errors (UserController.mk (UserService.mk memStore).asInterface)
        (request "99999".toList
          (Except.ok (Input.mk "user2".toList "duplicate@example.com".toList)))
        [User.mk 1 "user1".toList "duplicate@example.com".toList]
        (Input.mk "user2".toList "duplicate@example.com".toList) rfl).2.2
        99999 (by decide)).1 none "record not found"
        [User.mk 1 "user1".toList "duplicate@example.com".toList] (by decide)⟩⟩

/-- C30: in the handler `UpdateUser`, a token that is not a signed decimal
integer in the range of `int` is rejected with 400 "Invalid ID" and no call to
the service, and, for a body that parses, only such a token is; a token that
writes the integer `n` is handed to the service as `uint(n)`, which is `n`
modulo 2^64, hence `n + 2^64` when `n` is negative. -/
theorem UpdateUser_handler_id_token {σ : Type} (c : UserController σ) (ctx : Ctx) (st : σ) :
    ((¬ ∃ n : Int, strconv.SignedDecimal (ctx.Params "id".toList) n) →
        (UserController.mk (tracedService c.userService)).UpdateUser ctx (st, [])
          = some ({ status := StatusBadRequest, body := Body.error "Invalid ID" }, (st, []))) ∧
      (∀ input : Input, ctx.BodyParser = Except.ok input →
        ((UserController.mk (tracedService c.userService)).UpdateUser ctx (st, [])
            = some ({ status := StatusBadRequest, body := Body.error "Invalid ID" }, (st, []))
          ↔ ¬ ∃ n : Int, strconv.SignedDecimal (ctx.Params "id".toList) n)) ∧
      (∀ (n : Int) (input : Input), strconv.SignedDecimal (ctx.Params "id".toList) n →
        ctx.BodyParser = Except.ok input →
        ((uint n : Int) = n % (2 ^ 64 : Int) ∧ (n < 0 → (uint n : Int) = n + 2 ^ 64)) ∧
        (c.userService.UpdateUser (uint n) input.Username input.Email st = none →
          (UserController.mk (tracedService c.userService)).UpdateUser ctx (st, []) = none) ∧
        (∀ result : (Option User × Option String) × σ,
          c.userService.UpdateUser (uint n) input.Username input.Email st = some result →
          ∃ response : Response,
            (UserController.mk (tracedService c.userService)).UpdateUser ctx (st, [])
              = some (response,
                  (result.2, [ServiceCall.UpdateUser (uint n) input.Username input.Email])) ∧
            response.status ≠ StatusBadRequest)) := by
  have hreject : (¬ ∃ n : Int, strconv.SignedDecimal (ctx.Params "id".toList) n) →
      (UserController.mk (tracedService c.userService)).UpdateUser ctx (st, [])
        = some ({ status := StatusBadRequest, body := Body.error "Invalid ID" }, (st, [])) := by
    intro hnot
    rw [← strconv.Atoi_error_none_iff] at hnot
    cases herr : (strconv.Atoi (ctx.Params "id".toList)).2 with
    | none => exact absurd herr hnot
    | some err => exact UpdateUser_of_invalid_id _ ctx (st, []) err herr
  have hcalled : ∀ (n : Int) (input : Input),
      strconv.SignedDecimal (ctx.Params "id".toList) n → ctx.BodyParser = Except.ok input →
      (c.userService.UpdateUser (uint n) input.Username input.Email st = none →
        (UserController.mk (tracedService c.userService)).UpdateUser ctx (st, []) = none) ∧
      (∀ result : (Option User × Option String) × σ,
        c.userService.UpdateUser (uint n) input.Username input.Email st = some result →
        ∃ response : Response,
          (UserController.mk (tracedService c.userService)).UpdateUser ctx (st, [])
            = some (response,
                (result.2, [ServiceCall.UpdateUser (uint n) input.Username input.Email])) ∧
          response.status ≠ StatusBadRequest) := by
    intro n input hn hbody
    have hid := (strconv.Atoi_eq_ok_iff _ n).mpr hn
    constructor
    · intro hnone
      rw [UpdateUser_of_body _ ctx (st, []) n input hid hbody]
      simp only [tracedService, hnone, Option.map_none']
    · intro result hsome
      rw [UpdateUser_of_body _ ctx (st, []) n input hid hbody]
      simp only [tracedService, hsome, Option.map_some', List.nil_append]
      cases herr : result.1.2 with
      | some err =>
        exact ⟨_, rfl, by show StatusInternalServerError ≠ StatusBadRequest; decide⟩
      | none => exact ⟨_, rfl, by show StatusOK ≠ StatusBadRequest; decide⟩
  refine ⟨hreject, ?_, ?_⟩
  · intro input hbody
    refine ⟨?_, hreject⟩
    intro hresp hex
    obtain ⟨n, hn⟩ := hex
    obtain ⟨hpanic, hret⟩ := hcalled n input hn hbody
    cases hsvc : c.userService.UpdateUser (uint n) input.Username input.Email st with
    | none =>
      rw [hpanic hsvc] at hresp
      cases hresp
    | some result =>
      obtain ⟨response, heq, -⟩ := hret result hsvc
      rw [heq] at hresp
      simp only [Option.some.injEq, Prod.mk.injEq] at hresp
      have := hresp.2.2
      simp at this
  · intro n input hn hbody
    refine ⟨⟨uint_eq_emod n, ?_⟩, hcalled n input hn hbody⟩
    intro hneg
    obtain ⟨digits, -, -, ⟨-, hval, -⟩ | ⟨-, -, hlo⟩⟩ := hn
    · omega
    · exact uint_of_neg n hneg hlo

end controller

namespace controller
open entity strings repository service fiber

theorem UpdateUser_handler_id_token_witness :
    ((¬ ∃ n : Int, strconv.SignedDecimal
        ((request "invalid".toList (Except.error "no body")).Params "id".toList) n) ∧
      (UserController.mk (tracedService (UserService.mk memStore).asInterface)).UpdateUser
          (request "invalid".toList (Except.error "no body")) ([], [])
        = some ({ status := StatusBadRequest, body := Body.error "Invalid ID" }, ([], []))) ∧
    ((strconv.SignedDecimal
        ((request "-1".toList
          (Except.ok (Input.mk "new".toList "new@example.com".toList))).Params "id".toList)
        (-1) ∧
      (request "-1".toList
          (Except.ok (Input.mk "new".toList "new@example.com".toList))).BodyParser
        = Except.ok (Input.mk "new".toList "new@example.com".toList) ∧
      (-1 : Int) < 0 ∧
      (UserService.mk memStore).asInterface.UpdateUser (uint (-1)) "new".toList
          "new@example.com".toList []
        = some ((none, some "record not found"), [])) ∧
      (uint (-1) : Int) = -1 + 2 ^ 64 ∧
      ∃ response : Response,
        (UserController.mk (tracedService (UserService.mk memStore).asInterface)).UpdateUser
            (request "-1".toList (Except.ok (Input.mk "new".toList "new@example.com".toList)))
            ([], [])
          = some (response,
              ([], [ServiceCall.UpdateUser (uint (-1)) "new".toList
                "new@example.com".toList])) ∧
        response.status ≠ StatusBadRequest) :=
  ⟨⟨fun h => absurd ((strconv.Atoi_error_none_iff "invalid".toList).mpr h) (by decide),
      (UpdateUser_handler_id_token
        (UserController.mk (UserService.mk memStore).asInterface)
        (request "invalid".toList (Except.error "no body")) []).1
        (fun h => absurd ((strconv.Atoi_error_none_iff "invalid".toList).mpr h) (by decide))⟩,
    ⟨⟨(strconv.Atoi_eq_ok_iff "-1".toList (-1)).mp (by decide), rfl, by decide, by decide⟩,
      (((UpdateUser_handler_id_token
        (UserController.mk (UserService.mk memStore).asInterface)
        (request "-1".toList (Except.ok (Input.mk "new".toList "new@example.com".toList)))
        []).2.2 (-1) (Input.mk "new".toList "new@example.com".toList)
        ((strconv.Atoi_eq_ok_iff "-1".toList (-1)).mp (by decide)) rfl).1.2 (by decide)),
      (((UpdateUser_handler_id_token
        (UserController.mk (UserService.mk memStore).asInterface)
        (request "-1".toList (Except.ok (Input.mk "new".toList "new@example.com".toList)))
        []).2.2 (-1) (Input.mk "new".toList "new@example.com".toList)
        ((strconv.Atoi_eq_ok_iff "-1".toList (-1)).mp (by decide)) rfl).2.2
        ((none, some "record not found"), []) (by decide))⟩⟩

end controller

